import Mathlib

/-!
Verification of the JADN schema toolkit (`jadnschema/schema/*.py`).

Shallow embedding conventions:
* Python strings are `Str := List Char`; `str` turns a Lean string literal
  into this representation.
* Python `int` is `Int`; optional attributes (`hasattr`/`getattr`) are
  `Option`; a raised exception is the `Except.error` branch carrying a
  `PyErr`; accumulated (not raised) exception objects are structured
  `SErr`/`ErrItem` values.
* Mutation of the shared `Schema` object (`self._config`) is explicit
  state passing of a `SchemaSt` record.
-/

set_option maxHeartbeats 1600000

abbrev Str := List Char

def str (s : String) : Str := s.data

/-- Left brace character, written via its code point. -/
def lbr : Char := Char.ofNat 123

/-- Right brace character, written via its code point. -/
def rbr : Char := Char.ofNat 125

def isDig (c : Char) : Bool := 48 ≤ c.toNat ∧ c.toNat ≤ 57

def digitChar (d : Nat) : Char := Char.ofNat (48 + d)

/-- Decimal digits of a natural number (most significant first), as produced
by Python `str(n)` for `n ≥ 0`. -/
def natChars (n : Nat) : Str :=
  if h : n < 10 then [digitChar n]
  else natChars (n / 10) ++ [digitChar (n % 10)]
  decreasing_by exact Nat.div_lt_self (by omega) (by omega)

/-- Decimal digits of a Python `int` as produced by `str(i)`/f-strings. -/
def intChars (i : Int) : Str :=
  if i < 0 then '-' :: natChars i.natAbs else natChars i.toNat

def digitsVal (cs : Str) : Nat := cs.foldl (fun a c => a * 10 + (c.toNat - 48)) 0

/-- Parse of a non-empty all-digit string, the core of Python `int(s)`.
(Surrounding whitespace and `_` digit grouping, which Python's `int` also
accepts, are not modelled; no schema token uses them.) -/
def parseNatStr (cs : Str) : Option Nat :=
  if cs ≠ [] ∧ cs.all isDig then some (digitsVal cs) else none

/-- Python `int(s)` for optionally signed decimal strings, as `safe_cast`
uses it (`options.py::safe_cast`): failure is `none`, not an exception. -/
def parseInt (cs : Str) : Option Int :=
  match cs with
  | '-' :: rest => (parseNatStr rest).map (fun n => -(n : Int))
  | '+' :: rest => (parseNatStr rest).map (fun n => (n : Int))
  | _ => (parseNatStr cs).map (fun n => (n : Int))

/-- UTF-8 encoding of one code point, for Python `bytes(s, "utf-8")`. -/
def utf8Char (c : Char) : List Nat :=
  let n := c.toNat
  if n < 128 then [n]
  else if n < 2048 then [192 + n / 64, 128 + n % 64]
  else if n < 65536 then [224 + n / 4096, 128 + (n / 64) % 64, 128 + n % 64]
  else [240 + n / 262144, 128 + (n / 4096) % 64, 128 + (n / 64) % 64, 128 + n % 64]

def utf8Bytes (s : Str) : List Nat := s.flatMap utf8Char

/-- `s.startswith(p)` -/
def hasPfx (p s : Str) : Bool := p.isPrefixOf s

/-- `val.replace("_Enum-", "#")`: left-to-right, non-overlapping, as Python
`str.replace` does (`options.py` line 172). -/
def replaceEnumDash : Str → Str
  | '_' :: 'E' :: 'n' :: 'u' :: 'm' :: '-' :: rest => '#' :: replaceEnumDash rest
  | c :: rest => c :: replaceEnumDash rest
  | [] => []

/-- The regex `^[eE]num\((?P<type>[^)]*)\)$` of `Options.__setattr__`
(`options.py` line 157): returns the captured group on a match. -/
def enumMatch (v : Str) : Option Str :=
  let tail (rest : Str) : Option Str :=
    match rest.getLast? with
    | some ')' => if rest.dropLast.all (· ≠ ')') then some rest.dropLast else none
    | _ => none
  match v with
  | 'E' :: 'n' :: 'u' :: 'm' :: '(' :: rest => tail rest
  | 'e' :: 'n' :: 'u' :: 'm' :: '(' :: rest => tail rest
  | _ => none

/-- The `ktype`/`vtype` normalisation of `Options.__setattr__`
(`options.py` lines 155-159): `Enum(T)` becomes `$T`; empty and
non-matching values pass through. -/
def normVal (v : Str) : Str :=
  match enumMatch v with
  | some t => '$' :: t
  | none => v

/-- Default `TypeName` regex `^[A-Z][-$A-Za-z0-9]{0,31}$` (`schema.py`
`Config._defaults`; config overrides of the pattern are not modelled). -/
def matchTypeName (s : Str) : Bool :=
  match s with
  | [] => false
  | c :: rest =>
    c.isUpper ∧ rest.length ≤ 31 ∧
      rest.all (fun d => d = '-' ∨ d = '$' ∨ d.isUpper ∨ d.isLower ∨ isDig d)

/-- Default `FieldName` regex `^[a-z][_A-Za-z0-9]{0,31}$` (`fields.py`
`Field.check_name`, where it is hard-coded). -/
def matchFieldName (s : Str) : Bool :=
  match s with
  | [] => false
  | c :: rest =>
    c.isLower ∧ rest.length ≤ 31 ∧
      rest.all (fun d => d = '_' ∨ d.isUpper ∨ d.isLower ∨ isDig d)

/-- Python `str.capitalize`: first character upper-cased, rest lower-cased. -/
def pyCapitalize (s : Str) : Str :=
  match s with
  | [] => []
  | c :: rest => c.toUpper :: rest.map Char.toLower

/-- Python `s.split(sep)` for a one-character separator. -/
def splitOnChar (sep : Char) (s : Str) : List Str :=
  match s with
  | [] => [[]]
  | c :: rest =>
    let r := splitOnChar sep rest
    if c = sep then [] :: r
    else match r with
      | [] => [[c]]
      | p :: ps => (c :: p) :: ps

/-- Python `sep.join(parts)` for a one-character separator. -/
def joinChar (sep : Char) : List Str → Str
  | [] => []
  | [p] => p
  | p :: ps => p ++ sep :: joinChar sep ps

-- ### Round-trip lemmas for decimal printing/parsing

theorem digitChar_isDig (d : Nat) (h : d < 10) : isDig (digitChar d) = true := by
  interval_cases d <;> decide

theorem digitChar_toNat (d : Nat) (h : d < 10) : (digitChar d).toNat = 48 + d := by
  interval_cases d <;> decide

theorem natChars_all_digits (n : Nat) : (natChars n).all isDig = true := by
  induction n using Nat.strong_induction_on with
  | _ n ih =>
    rw [natChars]
    split
    · simp [digitChar_isDig n (by omega)]
    · rename_i h
      simp only [List.all_append, Bool.and_eq_true]
      refine ⟨ih (n / 10) (Nat.div_lt_self (by omega) (by omega)), ?_⟩
      simp [digitChar_isDig (n % 10) (Nat.mod_lt _ (by omega))]

theorem natChars_ne_nil (n : Nat) : natChars n ≠ [] := by
  rw [natChars]; split <;> simp

theorem digitsVal_append (xs ys : Str) :
    digitsVal (xs ++ ys) = ys.foldl (fun a c => a * 10 + (c.toNat - 48)) (digitsVal xs) := by
  simp [digitsVal, List.foldl_append]

theorem digitsVal_natChars_acc (n : Nat) (a : Nat) :
    (natChars n).foldl (fun a c => a * 10 + (c.toNat - 48)) a =
      a * 10 ^ (natChars n).length + n := by
  induction n using Nat.strong_induction_on generalizing a with
  | _ n ih =>
    rw [natChars]
    split
    · rename_i h
      simp only [List.foldl_cons, List.foldl_nil, List.length_cons, List.length_nil,
        digitChar_toNat n h, pow_one, Nat.add_sub_cancel_left, zero_add]
    · rename_i h
      rw [List.foldl_append, ih (n / 10) (Nat.div_lt_self (by omega) (by omega))]
      simp only [List.foldl_cons, List.foldl_nil, List.length_append, List.length_cons,
        List.length_nil, digitChar_toNat (n % 10) (Nat.mod_lt _ (by omega)),
        Nat.add_sub_cancel_left, zero_add]
      calc (a * 10 ^ (natChars (n / 10)).length + n / 10) * 10 + n % 10
          = a * 10 ^ ((natChars (n / 10)).length + 1) + (10 * (n / 10) + n % 10) := by ring
        _ = a * 10 ^ ((natChars (n / 10)).length + 1) + n := by rw [Nat.div_add_mod]

theorem parseNatStr_natChars (n : Nat) : parseNatStr (natChars n) = some n := by
  simp only [parseNatStr, natChars_all_digits, natChars_ne_nil, ne_eq,
    not_false_eq_true, and_true, if_pos]
  have h := digitsVal_natChars_acc n 0
  simp only [zero_mul, zero_add] at h
  simp [digitsVal, h]

theorem natChars_head_digit (n : Nat) : ∀ c ∈ (natChars n).head?, isDig c = true := by
  intro c hc
  have := natChars_all_digits n
  cases h : natChars n with
  | nil => simp [h] at hc
  | cons x xs =>
    rw [h] at hc this
    simp only [List.head?, Option.mem_def, Option.some.injEq] at hc
    subst hc
    simp only [List.all_cons, Bool.and_eq_true] at this
    exact this.1

theorem parseInt_intChars (i : Int) : parseInt (intChars i) = some i := by
  by_cases h : i < 0
  · rw [intChars, if_pos h]
    show (parseNatStr (natChars i.natAbs)).map (fun n => -(n : Int)) = some i
    rw [parseNatStr_natChars]
    show some (-(i.natAbs : Int)) = some i
    congr 1
    omega
  · rw [intChars, if_neg h]
    obtain ⟨c, cs, hnc⟩ : ∃ c cs, natChars i.toNat = c :: cs := by
      cases hx : natChars i.toNat with
      | nil => exact absurd hx (natChars_ne_nil _)
      | cons c cs => exact ⟨c, cs, rfl⟩
    have hcd : isDig c = true := by
      have hall := natChars_all_digits i.toNat
      rw [hnc] at hall
      simp only [List.all_cons, Bool.and_eq_true] at hall
      exact hall.1
    have hc1 : c ≠ '-' := by rintro rfl; exact absurd hcd (by decide)
    have hc2 : c ≠ '+' := by rintro rfl; exact absurd hcd (by decide)
    have hstep : parseInt (c :: cs) = (parseNatStr (c :: cs)).map (fun n => (n : Int)) := by
      unfold parseInt
      split
      · rename_i heq; injection heq with h1 h2; exact absurd h1 hc1
      · rename_i heq; injection heq with h1 h2; exact absurd h1 hc2
      · rfl
    rw [hnc, hstep, ← hnc, parseNatStr_natChars]
    show some ((i.toNat : Int)) = some i
    congr 1
    omega

-- ### Exception values
-- (`exceptions.py` defines DuplicateError, FormatError, OptionError,
-- ValidationError; host errors TypeError/ValueError/KeyError/AttributeError
-- come from Python itself.)

/-- Schema/validation exception *objects* (accumulated in error lists).
Constructors are grouped by the Python exception class they embed and carry
the data that appears in the message. -/
inductive SErr where
  -- OptionError (Options.verify)
  | optExtra (loc : Str)
  | optReqVtype (loc : Str)
  | optReqKtypeVtype (loc : Str)
  | optMaxLtMin (fieldMode : Bool)
  | optBadFormat (basetype loc fmt : Str)
  -- FormatError
  | fmtNameIsType (name : Str)
  | fmtFieldsRequired (name : Str)
  | fmtImproper (name : Str)
  | fmtBadFieldKind (name : Str)
  | fmtItemId (tname fname : Str) (got expect : Int)
  | fmtShouldHaveFields (name : Str)
  | fmtSchemaUndefined
  | fmtAlreadyDefined (fmt : Str)
  -- TypeError (verify paths)
  | typFieldUndefined (tname fname ftype : Str)
  | typTypeUndef (tname : Str)
  | typCannotEnum (tname : Str)
  | typSimplify (tname : Str)
  -- DuplicateError
  | dupTags (tname : Str) (items uniq : Nat)
  | dupNames (tname : Str) (items uniq : Nat)
  -- ValidationError (instance validation)
  | valRequired (fname : Str)
  | valNotValidAs (tname ttype : Str)
  | valUnknownFields (tname : Str) (fields : List Str)
  | valMinCount (tname : Str) (mn given : Int)
  | valMaxCount (tname : Str) (mx given : Int)
  | valNotUnique (tname : Str) (dups : List Str)
  | valBadChoice (tname : Str) (key : Option Str)
  | valBadEnum (tname : Str)
  | valInvalidFieldType (fname : Str)
  | valInvalidExport (tname : Str)
  | valNotValidSchema
  | valFmt (fmt : Str)
  -- ValueError (bound checks in CustomDefinition.validate)
  | valMinLen (tname : Str) (mn : Int)
  | valMaxLen (tname : Str) (mn : Int)
  | valMinNum (tname : Str) (mn : Int)
  | valMaxNum (tname : Str) (mx : Int)
  -- SchemaException (ArrayOf.validate)
  | schBadVtype (tname : Str)
  deriving DecidableEq, Repr

/-- A *raised* Python exception, aborting the current operation. -/
inductive PyErr where
  | attrErr (attr : Str)
  | typeErr
  | keyErr (key : Str)
  | indexErr
  | valueErr
  | recursionErr
  | raised (e : SErr)
  deriving DecidableEq, Repr

-- ### Options (`jadnschema/schema/options.py`)

/-- The option record: every slot of `Options.__slots__`; absence of the
Python attribute is `none`. -/
structure Options where
  -- field options (`_options["field"]`)
  default : Option Str := none
  minc : Option Int := none
  maxc : Option Int := none
  path : Option Bool := none
  tfield : Option Str := none
  -- type options (`_options["type"]`)
  enum : Option Str := none
  id : Option Bool := none
  ktype : Option Str := none
  vtype : Option Str := none
  format : Option Str := none
  pattern : Option Str := none
  minv : Option Int := none
  maxv : Option Int := none
  unique : Option Bool := none
  deriving DecidableEq, Repr

/-- Names of the option slots, in `__slots__` order (field options then
type options, each in declaration order). -/
inductive OptKey where
  | default | minc | maxc | path | tfield
  | enum | id | ktype | vtype | format | pattern | minv | maxv | unique
  deriving DecidableEq, Repr

/-- Value annotation of each option slot (`Options.__annotations__` plus
`_boolOpts`). -/
inductive OptAnn where
  | aBool | aInt | aStr
  deriving DecidableEq, Repr

def OptKey.ann : OptKey → OptAnn
  | .id | .path | .unique => .aBool
  | .minc | .maxc | .minv | .maxv => .aInt
  | .default | .tfield | .enum | .ktype | .vtype | .format | .pattern => .aStr

/-- `Options._ids`: one-character wire tag → target slot. -/
def tagOf (c : Char) : Option OptKey :=
  if c = '!' then some .default
  else if c = '<' then some .path
  else if c = '[' then some .minc
  else if c = ']' then some .maxc
  else if c = '&' then some .tfield
  else if c = '#' then some .enum
  else if c = '=' then some .id
  else if c = '+' then some .ktype
  else if c = '*' then some .vtype
  else if c = '/' then some .format
  else if c = lbr then some .minv
  else if c = rbr then some .maxv
  else if c = '%' then some .pattern
  else if c = 'q' then some .unique
  else none

/-- Wire tag of a slot (the inverted `_ids` table used by `Options.schema`). -/
def OptKey.tag : OptKey → Char
  | .default => '!'
  | .path => '<'
  | .minc => '['
  | .maxc => ']'
  | .tfield => '&'
  | .enum => '#'
  | .id => '='
  | .ktype => '+'
  | .vtype => '*'
  | .format => '/'
  | .minv => lbr
  | .maxv => rbr
  | .pattern => '%'
  | .unique => 'q'

/-- A decoded option value of the slot's annotated type. -/
inductive OptVal where
  | b (v : Bool)
  | i (v : Int)
  | s (v : Str)
  deriving DecidableEq, Repr

/-- Store a decoded value into its slot (the `tmp[opt] = ...` dict update;
a later token for the same slot overwrites). Value/slot kind mismatches
cannot be produced by the tokenizer and leave the record unchanged. -/
def Options.set (o : Options) (k : OptKey) (v : OptVal) : Options :=
  match k, v with
  | .default, .s v => { o with default := some v }
  | .minc, .i v => { o with minc := some v }
  | .maxc, .i v => { o with maxc := some v }
  | .path, .b v => { o with path := some v }
  | .tfield, .s v => { o with tfield := some v }
  | .enum, .s v => { o with enum := some v }
  | .id, .b v => { o with id := some v }
  | .ktype, .s v => { o with ktype := some v }
  | .vtype, .s v => { o with vtype := some v }
  | .format, .s v => { o with format := some v }
  | .pattern, .s v => { o with pattern := some v }
  | .minv, .i v => { o with minv := some v }
  | .maxv, .i v => { o with maxv := some v }
  | .unique, .b v => { o with unique := some v }
  | _, _ => o

/-- One token of `Options.__init__`'s list branch (`options.py` lines
144-150): `o[0]` selects the slot (`IndexError` on an empty token, skip
when the tag is unknown), `safe_cast(o[1:], inst)` parses the value
(`check_type` raises `TypeError` when an int fails to parse), and boolean
slots store `True` regardless of the remainder. -/
def parseTok (t : Str) : Except PyErr (Option (OptKey × OptVal)) :=
  match t with
  | [] => .error .indexErr
  | c :: cs =>
    match tagOf c with
    | none => .ok none
    | some k =>
      match k.ann with
      | .aBool => .ok (some (k, .b true))
      | .aInt =>
        match parseInt cs with
        | some n => .ok (some (k, .i n))
        | none => .error .typeErr
      | .aStr => .ok (some (k, .s cs))

/-- The token loop of `Options.__init__` building the `tmp` mapping. -/
def foldTokens : List Str → Options → Except PyErr Options
  | [], acc => .ok acc
  | t :: ts, acc =>
    match parseTok t with
    | .error e => .error e
    | .ok none => foldTokens ts acc
    | .ok (some (k, v)) => foldTokens ts (Options.set acc k v)

/-- The `__setattr__` pass over the collected values: `ktype`/`vtype` get
the `Enum(T) → $T` normalisation, other slots are stored unchanged. -/
def Options.normalize (o : Options) : Options :=
  { o with ktype := o.ktype.map normVal, vtype := o.vtype.map normVal }

/-- `Options(tokens)` — construction from a JADN token list
(`Options.__init__`, list branch, then `BaseModel.__init__` setattrs). -/
def Options.ofTokens (ts : List Str) : Except PyErr Options :=
  (foldTokens ts {}).map Options.normalize

def allOptKeys : List OptKey :=
  [.default, .minc, .maxc, .path, .tfield,
   .enum, .id, .ktype, .vtype, .format, .pattern, .minv, .maxv, .unique]

/-- `Options._options["field"]`. -/
def fieldOptKeys : List OptKey := [.default, .minc, .maxc, .path, .tfield]

/-- `hasattr(options, k)` — the slot was assigned. -/
def Options.present (o : Options) : OptKey → Bool
  | .default => o.default.isSome
  | .minc => o.minc.isSome
  | .maxc => o.maxc.isSome
  | .path => o.path.isSome
  | .tfield => o.tfield.isSome
  | .enum => o.enum.isSome
  | .id => o.id.isSome
  | .ktype => o.ktype.isSome
  | .vtype => o.vtype.isSome
  | .format => o.format.isSome
  | .pattern => o.pattern.isSome
  | .minv => o.minv.isSome
  | .maxv => o.maxv.isSome
  | .unique => o.unique.isSome

/-- `Options._validOptions`: allow-list of type options per base type
(unknown base types get the empty tuple via `.get(basetype, ())`). -/
def validOptionsTable (bt : Str) : List OptKey :=
  if bt = str "Binary" then [.format, .minv, .maxv]
  else if bt = str "Boolean" then []
  else if bt = str "Integer" then [.format, .minv, .maxv]
  else if bt = str "Number" then [.format, .minv, .maxv]
  else if bt = str "Null" then []
  else if bt = str "String" then [.format, .minv, .maxv, .pattern]
  else if bt = str "Array" then [.format, .minv, .maxv]
  else if bt = str "ArrayOf" then [.minv, .maxv, .vtype, .unique]
  else if bt = str "Choice" then [.id, .path]
  else if bt = str "Enumerated" then [.id, .enum, .path]
  else if bt = str "Map" then [.id, .minv, .maxv, .path]
  else if bt = str "MapOf" then [.ktype, .minv, .maxv, .vtype]
  else if bt = str "Record" then [.minv, .maxv, .path]
  else []

/-- The literal entries of `Options._validFormats` (the one regex entry
`u\d+` is handled separately in `validFormat`). -/
def validFormatLits : List Str :=
  [str "date-time", str "date", str "time", str "email", str "idn-email",
   str "hostname", str "idn-hostname", str "ipv4", str "ipv6", str "uri",
   str "uri-reference", str "iri", str "iri-reference", str "uri-template",
   str "json-pointer", str "relative-json-pointer", str "regex",
   str "eui", str "ipv4-addr", str "ipv6-addr", str "ipv4-net", str "ipv6-net",
   str "i8", str "i16", str "i32", str "x"]

/-- `any(re.match(f"^{vf}$", fmt) for vf in _validFormats)`. -/
def validFormat (f : Str) : Bool :=
  decide (f ∈ validFormatLits) ||
    match f with
    | 'u' :: ds => !ds.isEmpty && ds.all isDig
    | _ => false

/-- `Options.verify(basetype, defname, field, silent=True)` — the
accumulated error list (`options.py` lines 177-221; the non-silent variant
raises the head of this list). -/
def Options.verify (o : Options) (basetype : Str) (defname : Str) (fieldMode : Bool) :
    List SErr :=
  let validOpts := validOptionsTable basetype ++ (if fieldMode then fieldOptKeys else [])
  let extra := (allOptKeys.filter o.present).filter (fun k => ¬ k ∈ validOpts)
  let e1 :=
    if extra ≠ [] then [SErr.optExtra defname]
    else if basetype = str "ArrayOf" then
      if o.vtype.isNone then [SErr.optReqVtype defname] else []
    else if basetype = str "MapOf" then
      if o.vtype.isNone ∨ o.ktype.isNone then [SErr.optReqKtypeVtype defname] else []
    else []
  let minimum := (if fieldMode then o.minc else o.minv).getD 1
  let maximum := (if fieldMode then o.maxc else o.maxv).getD (max 1 minimum)
  let e2 := if maximum ≠ 0 ∧ maximum < minimum then [SErr.optMaxLtMin fieldMode] else []
  let e3 :=
    match o.format with
    | some f => if f ≠ [] ∧ ¬ validFormat f then [SErr.optBadFormat basetype defname f] else []
    | none => []
  e1 ++ e2 ++ e3

def emitTokS (tag : Char) : Option Str → List Str
  | some v => [tag :: v]
  | none => []

def emitTokI (tag : Char) : Option Int → List Str
  | some v => [tag :: intChars v]
  | none => []

/-- Boolean slots emit the bare tag whenever the attribute is set (the
emission guard is `val is not None`, so a stored `False` also emits). -/
def emitTokB (tag : Char) : Option Bool → List Str
  | some _ => [[tag]]
  | none => []

/-- The `vtype` token additionally rewrites a `_Enum`-prefixed value,
replacing `_Enum-` with the `enum` tag `#` (`options.py` line 172). -/
def emitTokVtype : Option Str → List Str
  | some v => ['*' :: (if hasPfx (str "_Enum") v then replaceEnumDash v else v)]
  | none => []

/-- The emission loop of `Options.schema`: one token per present slot, in
`__slots__` order. -/
def Options.emit (o : Options) : List Str :=
  emitTokS '!' o.default ++ emitTokI '[' o.minc ++ emitTokI ']' o.maxc ++
  emitTokB '<' o.path ++ emitTokS '&' o.tfield ++ emitTokS '#' o.enum ++
  emitTokB '=' o.id ++ emitTokS '+' o.ktype ++ emitTokVtype o.vtype ++
  emitTokS '/' o.format ++ emitTokS '%' o.pattern ++ emitTokI lbr o.minv ++
  emitTokI rbr o.maxv ++ emitTokB 'q' o.unique

/-- `Options.schema(basetype, defname, field)` — verifies (raising the
first error, since `verify` is called without `silent`), then emits. -/
def Options.schema (o : Options) (basetype : Str) (defname : Str) (fieldMode : Bool) :
    Except PyErr (List Str) :=
  match Options.verify o basetype defname fieldMode with
  | [] => .ok (Options.emit o)
  | e :: _ => .error (.raised e)

/-- The field-option half of `Options.split`. -/
def Options.fieldPart (o : Options) : Options :=
  { default := o.default, minc := o.minc, maxc := o.maxc, path := o.path,
    tfield := o.tfield }

/-- The type-option half of `Options.split` (re-construction passes
`ktype`/`vtype` through `__setattr__` normalisation again). -/
def Options.typePart (o : Options) : Options :=
  { enum := o.enum, id := o.id, ktype := o.ktype.map normVal,
    vtype := o.vtype.map normVal, format := o.format, pattern := o.pattern,
    minv := o.minv, maxv := o.maxv, unique := o.unique }

-- ### Fields and Definitions (`jadnschema/schema/fields.py`,
-- `jadnschema/schema/definitions/base.py`)

namespace Jadn

/-- `fields.Field`: `(id, name, type, options, description)`. -/
structure Field where
  id : Int
  name : Str
  type : Str
  options : Options := {}
  description : Str := []
  deriving DecidableEq, Repr

/-- `fields.EnumeratedField`: `(id, value, description)`; `value` is
`Union[int, str]`. -/
structure EnumeratedField where
  id : Int
  value : Sum Int Str
  description : Str := []
  deriving DecidableEq, Repr

/-- The field list of a definition: `Field`s, or `EnumeratedField`s when
the base type is Enumerated (`DefinitionBase.__init__` enforces the kind,
so a constructed definition always has the matching variant). -/
inductive FieldsK where
  | gen (l : List Field)
  | enum (l : List EnumeratedField)
  deriving DecidableEq, Repr

/-- `DefinitionBase` (the concrete class — Array/Choice/…/CustomDefinition —
is selected from `type` by `make_definition`, so it is not stored). -/
structure Definition where
  name : Str
  type : Str
  options : Options := {}
  description : Str := []
  fields : Option FieldsK := none
  deriving DecidableEq, Repr

def jadnSimple : List Str :=
  [str "Binary", str "Boolean", str "Integer", str "Number", str "Null", str "String"]

def jadnSelector : List Str := [str "Choice", str "Enumerated"]

def jadnCompoundT : List Str :=
  [str "Array", str "ArrayOf", str "Map", str "MapOf", str "Record"]

/-- `BaseModel._schema_types` as initialised at class creation: all 13
JADN builtin type names. -/
def allBuiltins : List Str := jadnSimple ++ jadnSelector ++ jadnCompoundT

/-- `DefinitionBase.is_builtin(t)` = `is_primitive(t) or is_structure(t)`
(exact name membership, no subtype stripping). -/
def isBuiltinName (t : Str) : Bool :=
  decide (t ∈ jadnSimple) || decide (t ∈ jadnCompoundT ++ jadnSelector)

/-- `DefinitionBase.is_compound(t)`:
`t in ("Array", "Choice", "Enumerated", "Map", "Record")`. -/
def isCompoundB (t : Str) : Bool :=
  decide (t ∈ [str "Array", str "Choice", str "Enumerated", str "Map", str "Record"])

/-- `DefinitionBase.basetype`: `type.rsplit(".")[0]`, i.e. the part before
the first `.`. -/
def basetypeOf (t : Str) : Str := t.takeWhile (· ≠ '.')

/-- The general field list; `[]` for an enumerated-field list, which the
callers below only touch behind a non-Enumerated base-type guard. -/
def Definition.genFields (d : Definition) : List Field :=
  match d.fields with
  | some (.gen l) => l
  | _ => []

def Definition.enumFieldList (d : Definition) : List EnumeratedField :=
  match d.fields with
  | some (.enum l) => l
  | _ => []

/-- The body of `DefinitionBase.verify`'s per-field loop for field `i`:
ordinal positional check, field-type-known check, field-option verify. -/
def fieldVerifyOne (tname : Str) (ordinal : Bool) (sts : List Str) (iv : Nat × Field) :
    List SErr :=
  let i := iv.1
  let f := iv.2
  (if ordinal ∧ f.id ≠ (i : Int) + 1 then [SErr.fmtItemId tname f.name f.id ((i : Int) + 1)]
   else []) ++
  (if ¬ f.type ∈ sts then [SErr.typFieldUndefined tname f.name f.type] else []) ++
  f.options.verify f.type (tname ++ '.' :: f.name) true

/-- `DefinitionBase.verify(schema_types, silent=True)` — the accumulated
error list (`definitions/base.py` lines 142-183). Duplicate ids/names are
detected by comparing the field count with the cardinality of the
`set()` of ids/names. -/
def Definition.verify (d : Definition) (sts : List Str) : List SErr :=
  let errs0 := d.options.verify (basetypeOf d.type) d.name false
  match d.fields with
  | none => errs0
  | some _ =>
    if isCompoundB (basetypeOf d.type) then
      if basetypeOf d.type = str "Enumerated" then errs0
      else
        let fl := d.genFields
        let ordinal := basetypeOf d.type = str "Array" ∨ basetypeOf d.type = str "Record"
        let fieldErrs := fl.enum.flatMap (fieldVerifyOne d.name ordinal sts)
        let uTags := (fl.map (·.id)).dedup.length
        let uNames := (fl.map (·.name)).dedup.length
        let tagDup := if fl.length ≠ uTags then [SErr.dupTags d.name fl.length uTags] else []
        let nameDup :=
          if fl.length ≠ uNames ∧ basetypeOf d.type ≠ str "Array" then
            [SErr.dupNames d.name fl.length uNames]
          else []
        errs0 ++ fieldErrs ++ tagDup ++ nameDup
    else errs0 ++ [SErr.fmtShouldHaveFields d.name]

/-- `optionDeps` inside `DefinitionBase.dependencies`: the non-empty,
non-builtin values among `(ktype, vtype)`. -/
def optionDeps (o : Options) : List Str :=
  (([o.ktype, o.vtype]).filterMap (fun x => x)).filter
    (fun v => !v.isEmpty && !isBuiltinName v)

/-- `DefinitionBase.dependencies` (a Python `set`, modelled as a
deduplicated list). -/
def Definition.dependencies (d : Definition) : List Str :=
  let s1 :=
    if basetypeOf d.type = str "ArrayOf" ∨ basetypeOf d.type = str "MapOf" then
      optionDeps d.options
    else []
  let s2 :=
    if isCompoundB (basetypeOf d.type) ∧ basetypeOf d.type ≠ str "Enumerated" then
      d.genFields.flatMap (fun f =>
        if f.type = str "ArrayOf" ∨ f.type = str "MapOf" then optionDeps f.options
        else if ¬ isBuiltinName f.type then (if f.type ≠ d.name then [f.type] else [])
        else [])
    else []
  (s1 ++ s2).dedup

/-- `DefinitionBase.fieldtypes`: the non-builtin field types (note the
guard compares `self.type`, not `basetype`, against "Enumerated"). -/
def Definition.fieldtypes (d : Definition) : List Str :=
  if isCompoundB (basetypeOf d.type) ∧ d.type ≠ str "Enumerated" then
    ((d.genFields.map (·.type)).filter (fun t => ¬ isBuiltinName t)).dedup
  else []

/-- `Field.enum_field`: `EnumeratedField([id, name, description])`. -/
def Field.enum_field (f : Field) : EnumeratedField :=
  { id := f.id, value := Sum.inr f.name, description := f.description }

/-- `DefinitionBase.enumerated`: primitives raise `TypeError`; Enumerated
returns itself; for other kinds an `Enum-<name>` Enumerated definition is
derived from the fields (accessing `self.fields` raises `AttributeError`
when the definition has none, e.g. ArrayOf/MapOf). -/
def Definition.enumerated (d : Definition) : Except PyErr Definition :=
  if d.type ∈ jadnSimple then .error .typeErr
  else if d.type = str "Enumerated" then .ok d
  else
    match d.fields with
    | none => .error (.attrErr (str "fields"))
    | some (.enum _) => .error (.attrErr (str "enum_field"))
    | some (.gen l) =>
      .ok { name := str "Enum-" ++ d.name, type := str "Enumerated",
            options := {},
            description := str "Derived Enumerated from " ++ d.name,
            fields := some (.enum (l.map Field.enum_field)) }

end Jadn

-- ### Instance values and the validation engine
-- (`schema.py::Schema.validate_as`, `fields.py::Field.validate`, and the
-- per-variant `validate` methods under `definitions/`)

namespace Jadn

/-- A Python instance value (JSON-ish; floats are not modelled — no claim
involves `Number` instances). -/
inductive Value where
  | vNone
  | vBool (b : Bool)
  | vInt (n : Int)
  | vStr (s : Str)
  | vBytes (bs : List Nat)
  | vList (l : List Value)
  | vDict (l : List (Str × Value))

/-- One element of a Python error list: an exception object, a `None`
appended by a success path, or a nested list appended whole (as
`MapOf.validate` does with the key errors). -/
inductive ErrItem where
  | exc (e : SErr)
  | pyNone
  | nested (l : List ErrItem)

abbrev Errs := List ErrItem

/-- What a `validate` method returns: a list for most variants, but
`Enumerated.validate` returns `None` or a bare exception object. -/
inductive ValRet where
  | listR (l : Errs)
  | noneR
  | excR (e : SErr)

/-- `Config` (`schema.py`): only `Sys` is consumed by the modelled core
(simplify's synthesized names); the bound/regex entries are read nowhere
in the modelled code paths (the validators hard-code 255/100, and the
name regexes are modelled by `matchTypeName`/`matchFieldName`). -/
structure Config where
  Sys : Str := str "$"
  deriving DecidableEq, Repr

/-- `Meta` (`schema.py`): optional slots; a missing slot is `none`
(`hasattr` false). `config` is always set by `Meta.__init__`. -/
structure Meta where
  module : Option Str := none
  patch : Option Str := none
  title : Option Str := none
  description : Option Str := none
  imports : Option (List (Str × Str)) := none
  exports : Option (List Str) := none
  config : Config := {}
  deriving DecidableEq, Repr

/-- The mutable state of a `Schema` object: `meta`, `types`, the derived
cache `_derived`, the format registry `_formats` (split into the
one-argument validators and the two-argument `unsigned` entry), and the
class-level `BaseModel._schema_types` set (builtins plus the field types
accumulated by `_setSchema`; modelled per-instance, which matches a fresh
process loading one schema). -/
structure SchemaSt where
  meta : Meta := {}
  types : List (Str × Definition) := []
  derived : List (Str × Definition) := []
  formats : List (Str × (Value → Option SErr)) := []
  unsignedFmt : Option (Int → Value → Option SErr) := none
  schemaTypesSet : List Str := allBuiltins

/-- Association-list lookup (Python `dict.get`; keys are unique by
construction, first match). -/
def lookupA {α : Type} (l : List (Str × α)) (k : Str) : Option α :=
  (l.find? (fun p => p.1 = k)).map (·.2)

/-- Python truthiness of the values we model (`if not inst: ...`). -/
def Value.falsy : Value → Bool
  | .vNone => true
  | .vBool b => !b
  | .vInt n => n = 0
  | .vStr s => s.isEmpty
  | .vBytes bs => bs.isEmpty
  | .vList l => l.isEmpty
  | .vDict l => l.isEmpty

/-- Python iteration: `list`/`tuple` yield elements, `str` yields 1-char
strings, `bytes` yields ints, `dict` yields keys; the rest raise
`TypeError`. `len` is the length of this list. -/
def pyElems : Value → Except PyErr (List Value)
  | .vList l => .ok l
  | .vStr s => .ok (s.map (fun c => .vStr [c]))
  | .vBytes bs => .ok (bs.map (fun b => .vInt b))
  | .vDict l => .ok (l.map (fun p => .vStr p.1))
  | _ => .error .typeErr

def pyLen (v : Value) : Except PyErr Int :=
  (pyElems v).map (fun l => (l.length : Int))

/-- `_Python_Types` (`definitions/base.py`). -/
inductive PyType where
  | pBytes | pBool | pInt | pFloat | pStr
  deriving DecidableEq, Repr

def pyTypeOf (t : Str) : Option PyType :=
  if t = str "Binary" then some .pBytes
  else if t = str "Boolean" then some .pBool
  else if t = str "Integer" then some .pInt
  else if t = str "Number" then some .pFloat
  else if t = str "String" then some .pStr
  else none

/-- `isinstance` against the host types (`bool` is a subclass of `int`;
an int is not an instance of `float`). -/
def isInst : Value → PyType → Bool
  | .vBytes _, .pBytes => true
  | .vBool _, .pBool => true
  | .vBool _, .pInt => true
  | .vInt _, .pInt => true
  | .vStr _, .pStr => true
  | _, _ => false

/-- `a > inst` for an int bound against an instance (Python compares bools
as ints and raises `TypeError` against other types). -/
def pyGtVal (a : Int) : Value → Except PyErr Bool
  | .vInt n => .ok (a > n)
  | .vBool b => .ok (a > (if b then 1 else 0))
  | _ => .error .typeErr

/-- `a < inst` with the same coercions. -/
def pyLtVal (a : Int) : Value → Except PyErr Bool
  | .vInt n => .ok (a < n)
  | .vBool b => .ok (a < (if b then 1 else 0))
  | _ => .error .typeErr

/-- Python `==` on hashable leaf values (`1 == True`). -/
def pyEqLeaf (a b : Value) : Bool :=
  match a, b with
  | .vInt x, .vInt y => x = y
  | .vBool x, .vBool y => x = y
  | .vInt x, .vBool y => x = (if y then 1 else 0)
  | .vBool x, .vInt y => (if x then 1 else 0) = y
  | .vNone, .vNone => true
  | .vStr x, .vStr y => x = y
  | .vBytes x, .vBytes y => x = y
  | _, _ => false

def hashable : Value → Bool
  | .vList _ => false
  | .vDict _ => false
  | _ => true

def pyEqValInt (v : Value) (i : Int) : Bool :=
  match v with
  | .vInt n => n = i
  | .vBool b => (if b then 1 else 0) = i
  | _ => false

def pyEqValEnumVal (v : Value) (ev : Sum Int Str) : Bool :=
  match ev with
  | .inl i => pyEqValInt v i
  | .inr sv => match v with
    | .vStr t => t = sv
    | _ => false

/-- First-match lookup in a Python dict's item list. -/
def dictGet (l : List (Str × Value)) (k : Str) : Option Value :=
  (l.find? (fun p => p.1 = k)).map (·.2)

/-- `DefinitionBase.get_field(name)`: the field of that name if exactly
one exists, else `None`. -/
def Definition.get_field (d : Definition) (n : Str) : Option Field :=
  match d.genFields.filter (fun f => f.name = n) with
  | [f] => some f
  | _ => none

/-- The `unique` option check of `ArrayOf.validate`: `set(inst)` raises
`TypeError` on unhashable elements; duplicates are reported by value via
`','.join(dups)`, which itself raises `TypeError` for non-str values. -/
def uniqueCheck (tname : Str) (l : List Value) : Except PyErr Errs :=
  if l.any (fun x => !hashable x) then .error .typeErr
  else
    let distinct := l.foldl
      (fun acc x => if acc.any (fun y => pyEqLeaf y x) then acc else acc ++ [x]) []
    if l.length - distinct.length > 0 then
      let dups := distinct.filter (fun x => l.countP (fun y => pyEqLeaf y x) > 1)
      if dups.all (fun x => match x with | .vStr _ => true | _ => false) then
        .ok [.exc (.valNotUnique tname (dups.filterMap
          (fun x => match x with | .vStr t => some t | _ => none)))]
      else .error .typeErr
    else .ok []

/-- `Field.validate(inst, card_enforce)` (`fields.py` lines 111-139): the
cardinality "field is required" check runs first, then line 127/134 read
`self._schema` — an attribute never assigned to `Field` instances (they
receive only `_config`), so every call aborts with `AttributeError`
before the type dispatch (and before the lazy `_<name>` insertion into
the types map at line 131 can execute). -/
def Field.validate (s : SchemaSt) (f : Field) (v : Value) (cardEnforce : Bool) :
    SchemaSt × Except PyErr Errs :=
  let minCard := f.options.minc.getD 1
  let maxCard := f.options.maxc.getD (max minCard 1)
  let _required : Errs :=
    if cardEnforce ∧ minCard = maxCard ∧ minCard = 1 ∧ v.falsy then
      [.exc (.valRequired f.name)]
    else []
  (s, .error (.attrErr (str "_schema")))

/-- The `for field, value in inst.items()` loop shared by `Record.validate`
and `Map.validate`: look the field up by name (`None` when missing or
duplicated, making the `.validate` call raise `AttributeError`) and
extend with `Field.validate`'s result. -/
def fieldLoop (s : SchemaSt) (d : Definition) (cardEnforce : Bool)
    (items : List (Str × Value)) (acc : Errs) : SchemaSt × Except PyErr Errs :=
  match items with
  | [] => (s, .ok acc)
  | (k, v) :: rest =>
    match d.get_field k with
    | none => (s, .error (.attrErr (str "validate")))
    | some fd =>
      match Field.validate s fd v cardEnforce with
      | (s1, .error e) => (s1, .error e)
      | (s1, .ok errs) => fieldLoop s1 d cardEnforce rest (acc ++ errs)

/-- `key and key in [getattr(f, attr) for f in fields]` in
`Choice.validate`: in `id` mode the string key is compared against the
integer ids and never matches. -/
def choiceKeyMatch (idMode : Bool) (k : Str) (fl : List Field) : Bool :=
  if idMode then false else fl.any (fun f => f.name = k)

end Jadn

namespace Jadn

/-- `CustomDefinition.validate` (`definitions/custom.py`): host-type check,
optional format function, then length/numeric bounds.  Pure in the schema
state (only the format registry is read). -/
def customValidate (s : SchemaSt) (d : Definition) (v : Value) : Except PyErr Errs :=
  if decide (d.type = str "None") && (match v with | .vNone => false | _ => true) then
    .ok [.exc (.valNotValidAs d.name d.type)]
  else
    let v1 := if d.type = str "Binary" then
        (match v with | .vStr t => Value.vBytes (utf8Bytes t) | _ => v)
      else v
    let e1 : Errs :=
      match pyTypeOf d.type with
      | some pt => if ¬ isInst v1 pt then [.exc (.valNotValidAs d.name d.type)] else []
      | none => []
    let viaRegistry : Except PyErr Errs :=
      match lookupA s.formats (d.options.format.getD []) with
      | some fn => match fn v1 with
        | some e => .ok [.exc e]
        | none => .ok []
      | none => .ok []
    let fmtRes : Except PyErr Errs :=
      match d.options.format with
      | some f =>
        if f.isEmpty then .ok []
        else
          match f with
          | 'u' :: ds =>
            if !ds.isEmpty && ds.all isDig then
              match s.unsignedFmt with
              | none => .error (.keyErr (str "unsigned"))
              | some uf =>
                match uf (digitsVal ds) v1 with
                | some e => .ok [.exc e]
                | none => .ok []
            else viaRegistry
          | _ => viaRegistry
      | none => .ok []
    let boundsRes : Except PyErr Errs :=
      if d.type = str "Binary" ∨ d.type = str "String" then
        match pyLen v1 with
        | .error e => .error e
        | .ok n =>
          let mn := d.options.minv.getD 0
          let mx := d.options.maxv.getD 255
          if mn > n then .ok [.exc (.valMinLen d.name mn)]
          -- the "maximum length" message interpolates `min_len` in the
          -- source; the payload mirrors that
          else if mx < n then .ok [.exc (.valMaxLen d.name mn)]
          else .ok []
      else if d.type = str "Integer" ∨ d.type = str "Number" then
        let mn := d.options.minv.getD 0
        let mx := d.options.maxv.getD 0
        match pyGtVal mn v1 with
        | .error e => .error e
        | .ok true => .ok [.exc (.valMinNum d.name mn)]
        | .ok false =>
          if mx ≠ 0 then
            match pyLtVal mx v1 with
            | .error e => .error e
            | .ok true => .ok [.exc (.valMaxNum d.name mx)]
            | .ok false => .ok []
          else .ok []
      else .ok []
    match fmtRes with
    | .error e => .error e
    | .ok e2 =>
      match boundsRes with
      | .error e => .error e
      | .ok e3 => .ok (e1 ++ e2 ++ e3)

/-- `Array.validate` (`definitions/array.py`): with a `format` option the
instance is passed whole to the format function (whose possibly-`None`
result is appended as-is); otherwise only the element count is checked. -/
def arrayValidate (s : SchemaSt) (d : Definition) (v : Value) : Except PyErr Errs :=
  if (d.options.format).isSome then
    match lookupA s.formats (d.options.format.getD []) with
    | some fn => .ok [match fn v with | some e => .exc e | none => .pyNone]
    | none => .ok []
  else
    match pyLen v with
    | .error e => .error e
    | .ok n =>
      let mn := d.options.minv.getD 0
      let mx0 := d.options.maxv.getD 0
      let mx := if mx0 ≤ 0 then 100 else mx0
      if mn > n then .ok [.exc (.valMinCount d.name mn n)]
      else if n > mx then .ok [.exc (.valMaxCount d.name mx n)]
      else .ok []

/-- `Enumerated.validate` (`definitions/enumerated.py`): membership of the
instance among ids (`id` option set) or values; returns `None` or a bare
`ValidationError`. -/
def enumValidate (d : Definition) (v : Value) : ValRet :=
  let vals := d.enumFieldList
  if d.options.id.isSome then
    if vals.any (fun f => pyEqValInt v f.id) then .noneR else .excR (.valBadEnum d.name)
  else
    if vals.any (fun f => pyEqValEnumVal v f.value) then .noneR else .excR (.valBadEnum d.name)

/-- The shared body of `Record.validate` and `Map.validate` (they differ
only in the `card_enforce` flag passed to `Field.validate`): unknown-field
check, key-count bounds, then the per-field loop. -/
def mapRecValidate (s : SchemaSt) (d : Definition) (v : Value) (cardEnforce : Bool) :
    SchemaSt × Except PyErr Errs :=
  match v with
  | .vDict items =>
    let n : Int := items.length
    let mn := d.options.minv.getD 0
    let mx0 := d.options.maxv.getD 0
    let mx := if mx0 ≤ 0 then 100 else mx0
    let fnames := d.genFields.map (·.name)
    let extra := ((items.map (·.1)).filter (fun k => ¬ k ∈ fnames)).dedup
    if ¬ extra.isEmpty then (s, .ok [.exc (.valUnknownFields d.name extra)])
    else if mn > n then (s, .ok [.exc (.valMinCount d.name mn n)])
    else if n > mx then (s, .ok [.exc (.valMaxCount d.name mx n)])
    else fieldLoop s d cardEnforce items []
  | _ => (s, .error (.attrErr (str "keys")))

/-- The `for idx in inst` loop of `ArrayOf.validate` (a `None` schema type
raises `AttributeError` at the first element); `f` is the per-element
validation, instantiated below with `Definition.validate` at the current
stack depth. -/
def validateList (f : SchemaSt → Definition → Value → SchemaSt × Except PyErr ValRet)
    (sd : Option Definition) : SchemaSt → List Value → Errs → SchemaSt × Except PyErr Errs
  | s, [], acc => (s, .ok acc)
  | s, x :: xs, acc =>
    match sd with
    | none => (s, .error (.attrErr (str "validate")))
    | some d0 =>
      match f s d0 x with
      | (s1, .error e) => (s1, .error e)
      | (s1, .ok r) =>
        let add : Errs :=
          match r with
          | .listR l => l
          | .noneR => [.pyNone]
          | .excR e => [.exc e]
        validateList f sd s1 xs (acc ++ add)

/-- The `for key, val in inst.items()` loop of `MapOf.validate`: the key
result is *appended* whole (a nested list), the value result is extended
when it is a list; `f` is the per-element validation. -/
def mapItems (f : SchemaSt → Definition → Value → SchemaSt × Except PyErr ValRet)
    (kd vd : Option Definition) : SchemaSt → List (Str × Value) → Errs →
    SchemaSt × Except PyErr Errs
  | s, [], acc => (s, .ok acc)
  | s, (k, val) :: rest, acc =>
    match kd with
    | none => (s, .error (.attrErr (str "validate")))
    | some kd0 =>
      match f s kd0 (.vStr k) with
      | (s1, .error e) => (s1, .error e)
      | (s1, .ok kr) =>
        let kItem : ErrItem :=
          match kr with
          | .listR l => .nested l
          | .noneR => .pyNone
          | .excR e => .exc e
        match vd with
        | none => (s1, .error (.attrErr (str "validate")))
        | some vd0 =>
          match f s1 vd0 val with
          | (s2, .error e) => (s2, .error e)
          | (s2, .ok vr) =>
            let vAdd : Errs :=
              match vr with
              | .listR l => l
              | .noneR => [.pyNone]
              | .excR e => [.exc e]
            mapItems f kd vd s2 rest (acc ++ [kItem] ++ vAdd)

/-- `Choice.validate` (`definitions/choice.py`): exactly one key, matched
against the field names (ids in `id` mode, where a string key never
matches), then the selected field's *type* is validated via `f` (the
recursive validation). -/
def choiceValidate (f : SchemaSt → Definition → Value → SchemaSt × Except PyErr ValRet)
    (s : SchemaSt) (d : Definition) (v : Value) : SchemaSt × Except PyErr ValRet :=
  match v with
  | .vDict items =>
    let keys := items.map (·.1)
    let key? : Option Str := match keys with | [k] => some k | _ => none
    let idMode := d.options.id.isSome
    match key? with
    | some k =>
      if ¬ k.isEmpty ∧ choiceKeyMatch idMode k d.genFields then
        match d.get_field k with
        | none => (s, .error (.attrErr (str "type")))
        | some fd =>
          match lookupA s.types fd.type with
          | none => (s, .ok (.listR [.exc (.valBadChoice d.name (some k))]))
          | some td =>
            match dictGet items k with
            | none => (s, .error (.keyErr k))
            | some v2 =>
              match f s td v2 with
              | (s1, .error e) => (s1, .error e)
              | (s1, .ok (.listR l)) => (s1, .ok (.listR l))
              | (s1, .ok .noneR) => (s1, .ok (.listR [.pyNone]))
              | (s1, .ok (.excR e)) => (s1, .ok (.listR [.exc e]))
      else (s, .ok (.listR [.exc (.valBadChoice d.name (some k))]))
    | none => (s, .ok (.listR [.exc (.valBadChoice d.name none)]))
  | _ => (s, .error (.attrErr (str "keys")))

/-- `MapOf.validate` (`definitions/mapOf.py`): the `_types` attribute that
`$`-prefixed ktype/vtype would read does not exist on `Schema`; otherwise
count bounds then the per-item loop with `f` the recursive validation. -/
def mapOfValidate (f : SchemaSt → Definition → Value → SchemaSt × Except PyErr ValRet)
    (s : SchemaSt) (d : Definition) (v : Value) : SchemaSt × Except PyErr ValRet :=
  match v with
  | .vDict items =>
    match d.options.ktype with
    | none => (s, .error (.attrErr (str "ktype")))
    | some kt =>
      if hasPfx (str "$") kt then (s, .error (.attrErr (str "_types")))
      else
        match d.options.vtype with
        | none => (s, .error (.attrErr (str "vtype")))
        | some vt =>
          if hasPfx (str "$") vt then (s, .error (.attrErr (str "_types")))
          else
            let kd := lookupA s.types kt
            let vd := lookupA s.types vt
            let n : Int := items.length
            let mn := d.options.minv.getD 0
            let mx0 := d.options.maxv.getD 0
            let mx := if mx0 ≤ 0 then 100 else mx0
            let e1 : Errs :=
              if mn > n then [.exc (.valMinCount d.name mn n)]
              else if n > mx then [.exc (.valMaxCount d.name mx n)]
              else []
            match mapItems f kd vd s items e1 with
            | (s1, .error e) => (s1, .error e)
            | (s1, .ok l) => (s1, .ok (.listR l))
  | _ => (s, .error (.attrErr (str "keys")))

/-- Instance validation dispatch: the concrete class is selected by
`make_definition` from the exact `type` string; anything not in its table
is a `CustomDefinition`. `gas` bounds the Python call-stack depth —
exhaustion models `RecursionError` (reachable, e.g. through cyclic
`vtype` references). -/
def Definition.validate (s : SchemaSt) (d : Definition) (v : Value) :
    Nat → SchemaSt × Except PyErr ValRet
  | 0 => (s, .error .recursionErr)
  | g + 1 =>
    if d.type = str "Array" then (s, (arrayValidate s d v).map .listR)
    else if d.type = str "ArrayOf" then
      -- definitions/arrayOf.py
      match pyElems v with
      | .error e => (s, .error e)
      | .ok elems =>
        let n : Int := elems.length
        let mn := d.options.minv.getD 0
        let mx0 := d.options.maxv.getD 0
        let mx := if mx0 ≤ 0 then 100 else mx0
        let e1 : Errs :=
          if mn > n then [.exc (.valMinCount d.name mn n)]
          else if n > mx then [.exc (.valMaxCount d.name mx n)]
          else []
        match (if d.options.unique.isSome then uniqueCheck d.name elems else .ok []) with
        | .error e => (s, .error e)
        | .ok e2 =>
          match d.options.vtype with
          | some vt =>
            if vt.isEmpty then (s, .ok (.listR (e1 ++ e2 ++ [.exc (.schBadVtype d.name)])))
            else
              match pyTypeOf vt with
              | some pt =>
                let e3 : Errs :=
                  if ¬ elems.all (fun x => isInst x pt) then [.exc (.valNotValidAs d.name vt)]
                  else []
                (s, .ok (.listR (e1 ++ e2 ++ e3)))
              | none =>
                let sd := if hasPfx (str "$") vt then lookupA s.derived vt
                  else lookupA s.types vt
                match validateList (fun s2 d2 v2 => Definition.validate s2 d2 v2 g)
                    sd s elems [] with
                | (s1, .error e) => (s1, .error e)
                | (s1, .ok e3) => (s1, .ok (.listR (e1 ++ e2 ++ e3)))
          | none => (s, .ok (.listR (e1 ++ e2 ++ [.exc (.schBadVtype d.name)])))
    else if d.type = str "Choice" then
      choiceValidate (fun s2 d2 v2 => Definition.validate s2 d2 v2 g) s d v
    else if d.type = str "Enumerated" then (s, .ok (enumValidate d v))
    else if d.type = str "Map" then
      match mapRecValidate s d v false with
      | (s1, .error e) => (s1, .error e)
      | (s1, .ok l) => (s1, .ok (.listR l))
    else if d.type = str "MapOf" then
      mapOfValidate (fun s2 d2 v2 => Definition.validate s2 d2 v2 g) s d v
    else if d.type = str "Record" then
      match mapRecValidate s d v true with
      | (s1, .error e) => (s1, .error e)
      | (s1, .ok l) => (s1, .ok (.listR l))
    else (s, (customValidate s d v).map .listR)

/-- `Schema.validate_as(inst, type, silent=True)` (`schema.py` lines
502-515): requires the type among `meta.exports` (reading the attribute
raises when exports were never set), dispatches to the definition, then
filters falsy entries; a bare-exception return (Enumerated) hits
`len(rtn)` and raises `TypeError`. -/
def SchemaSt.validate_as (s : SchemaSt) (v : Value) (ty : Str) (g : Nat) :
    SchemaSt × Except PyErr (Option Errs) :=
  match s.meta.exports with
  | none => (s, .error (.attrErr (str "exports")))
  | some exps =>
    if ty ∈ exps then
      match lookupA s.types ty with
      | none => (s, .error (.attrErr (str "validate")))
      | some d =>
        match Definition.validate s d v g with
        | (s1, .error e) => (s1, .error e)
        | (s1, .ok .noneR) => (s1, .ok none)
        | (s1, .ok (.excR _)) => (s1, .error .typeErr)
        | (s1, .ok (.listR l)) =>
          let errors := (if ¬ l.isEmpty then l else []).filter
            (fun it => match it with
              | .exc _ => true
              | .pyNone => false
              | .nested m => ¬ m.isEmpty)
          (s1, .ok (if errors.isEmpty then none else some errors))
    else (s, .ok (some [.exc (.valInvalidExport ty)]))

end Jadn

-- ### Schema-level operations (`jadnschema/schema/schema.py`)

namespace Jadn

/-- Update-or-append on an association list (Python dict assignment:
an existing key keeps its position, a new key is appended). -/
def assocSet {α : Type} (l : List (Str × α)) (k : Str) (v : α) : List (Str × α) :=
  if l.any (fun p => p.1 = k) then l.map (fun p => if p.1 = k then (k, v) else p)
  else l ++ [(k, v)]

/-- Import namespace ids: the keys of `meta.imports` (empty when unset). -/
def SchemaSt.nsids (s : SchemaSt) : List Str := (s.meta.imports.getD []).map (·.1)

/-- `ns(name)` inside `Schema.dependencies`: collapse `ns:Type` to `ns`
when `ns` is a known import id, else keep the full name. -/
def nsCollapse (nsids : List Str) (name : Str) : Str :=
  let nsp := name.takeWhile (· ≠ ':')
  if nsp ∈ nsids then nsp else name

/-- `Schema.dependencies` (`schema.py` lines 223-241): a dict seeded with
one empty entry per import id, then one entry per declared type with its
namespace-collapsed dependency set. -/
def SchemaSt.dependencies (s : SchemaSt) : List (Str × List Str) :=
  let nsids := s.nsids
  let base : List (Str × List Str) := nsids.map (fun n => (n, []))
  s.types.foldl
    (fun acc p => assocSet acc p.1 ((p.2.dependencies.map (nsCollapse nsids)).dedup))
    base

structure AnalyzeRes where
  module : Str
  exports : List Str
  unreferenced : Finset Str
  undefined : Finset Str

/-- `Schema.analyze` (`schema.py` lines 207-221). `refs` unions all
dependency sets with the exports; `types` unions the `dependencies()` keys
(declared names *and* import ids) with the derived cache keys;
`unreferenced = types - refs - derived`, `undefined = refs - types`. -/
def SchemaSt.analyze (s : SchemaSt) : AnalyzeRes :=
  let td := s.dependencies
  let refs : Finset Str :=
    (td.flatMap (·.2)).toFinset ∪ (s.meta.exports.getD []).toFinset
  let typs : Finset Str :=
    (td.map (·.1)).toFinset ∪ (s.derived.map (·.1)).toFinset
  { module := s.meta.module.getD [] ++ s.meta.patch.getD []
    exports := s.meta.exports.getD []
    unreferenced := (typs \ refs) \ (s.derived.map (·.1)).toFinset
    undefined := refs \ typs }

/-- Count of present `Meta` slots (`len(meta.keys())`); `config` is always
assigned by `Meta.__init__`, so this is never zero. -/
def metaKeyCount (m : Meta) : Nat :=
  (if m.module.isSome then 1 else 0) + (if m.patch.isSome then 1 else 0) +
  (if m.title.isSome then 1 else 0) + (if m.description.isSome then 1 else 0) +
  (if m.imports.isSome then 1 else 0) + (if m.exports.isSome then 1 else 0) + 1

/-- `Schema.verify_schema(silent=True)` (`schema.py` lines 461-488):
empty meta/types short-circuits; otherwise per type a type-keyword check
against `_schema_types` followed by the definition's own `verify`
(against the same, field-type-augmented, set). -/
def SchemaSt.verify_schema (s : SchemaSt) : List SErr :=
  if metaKeyCount s.meta = 0 ∨ s.types.isEmpty then [.fmtSchemaUndefined]
  else
    s.types.flatMap (fun p =>
      (if ¬ p.2.type ∈ s.schemaTypesSet then [SErr.typTypeUndef p.1] else []) ++
      p.2.verify s.schemaTypesSet)

/-- One half of `DefinitionBase.process_options` (`definitions/base.py`
lines 230-241): a `$`-prefixed ktype/vtype not yet in the derived cache is
materialised via `types[name[1:]].enumerated()` (`None.enumerated()`
raises `AttributeError` when the base name is undeclared). -/
def processOptions1 (s : SchemaSt) (kt : Option Str) : Except PyErr SchemaSt :=
  match kt with
  | some k =>
    if hasPfx (str "$") k then
      match lookupA s.derived k with
      | some _ => .ok s
      | none =>
        match lookupA s.types (k.drop 1) with
        | none => .error (.attrErr (str "enumerated"))
        | some td =>
          match td.enumerated with
          | .error e => .error e
          | .ok ed => .ok { s with derived := assocSet s.derived k ed }
    else .ok s
  | none => .ok s

def Definition.process_options (s : SchemaSt) (d : Definition) : SchemaSt × Option PyErr :=
  match processOptions1 s d.options.ktype with
  | .error e => (s, some e)
  | .ok s1 =>
    match processOptions1 s1 d.options.vtype with
    | .error e => (s1, some e)
    | .ok s2 => (s2, none)

end Jadn

-- ### The simplify passes of `Schema.simplify` (dict form) and the
-- load pipeline `Schema._setSchema`

namespace Jadn

/-- A field in simplify's intermediate dict form (enumerated field dicts
have no "options" key and are skipped by the passes). -/
inductive FieldD where
  | genD (f : Field)
  | enumD (f : EnumeratedField)
  deriving DecidableEq, Repr

/-- A type definition in the dict form produced by `_convert_types`:
options are `Options` objects; a missing "fields" key is `none`. -/
structure TypeD where
  name : Str
  type : Str
  options : Options := {}
  description : Str := []
  fields : Option (List FieldD) := none
  deriving DecidableEq, Repr

/-- One field of `remove_anonymous_type` (`schema.py` lines 284-302): a
field whose options carry type-level keys is rewritten to reference a
synthesized `<FieldType><Sys><fieldName>` type (underscores to dashes)
holding those type options. -/
def anonField (sys : Str) (f : Field) : Field × List TypeD :=
  let fo := f.options.fieldPart
  let to_ := f.options.typePart
  if to_ ≠ ({} : Options) then
    let newName := (f.type ++ sys ++ f.name).map (fun c => if c = '_' then '-' else c)
    ({ f with type := newName, options := fo },
     [{ name := newName, type := f.type, options := to_, description := f.description }])
  else (f, [])

/-- Per field: enumerated field dicts have no "options" key and are
skipped. -/
def anonFieldD (sys : Str) : FieldD → FieldD × List TypeD
  | .genD f => (.genD (anonField sys f).1, (anonField sys f).2)
  | .enumD f => (.enumD f, [])

def anonType (sys : Str) (t : TypeD) : TypeD × List TypeD :=
  match t.fields with
  | none => (t, [])
  | some fl =>
    let res := fl.map (anonFieldD sys)
    ({ t with fields := some (res.map (·.1)) }, res.flatMap (·.2))

/-- `remove_anonymous_type`: iterates a snapshot of the type list,
appending each synthesized type at the end — with *no* deduplication by
name. -/
def remove_anonymous_type (sys : Str) (ts : List TypeD) : List TypeD :=
  let res := ts.map (anonType sys)
  res.map (·.1) ++ res.flatMap (·.2)

/-- The synthesized name of `remove_multiplicity`: split the field name on
`_`, pluralise the last part (`plu` stands for the external `inflect`
step `p.plural(x) if p.get_count(x) == 1 else x`), capitalize each part
and join with dashes. -/
def multiNewName (plu : Str → Str) (fname : Str) : Str :=
  let parts := splitOnChar '_' fname
  let parts2 :=
    match parts.reverse with
    | last :: front => (plu last :: front).reverse
    | [] => []
  joinChar '-' (parts2.map pyCapitalize)

/-- One field of `remove_multiplicity` (`schema.py` lines 304-335): a
field with `maxc` present and ≠ 1, or `minc > 1`, is rewritten to
reference a synthesized `ArrayOf` wrapping its type; `delattr(field_opts,
"maxc")` raises `AttributeError` when `maxc` is absent; the append is
guarded by a name lookup over the live list (`origNames` plus the types
appended so far), but the field is rewritten regardless. -/
def multiField (plu : Str → Str) (origNames : List Str) (acc : List TypeD) (f : Field) :
    Except PyErr (Field × List TypeD) :=
  let fo := f.options.fieldPart
  let to_ := f.options.typePart
  let minc := fo.minc.getD 0
  let maxc := fo.maxc
  if (match maxc with | some x => decide (x ≠ 1) | none => false) || decide (minc > 1) then
    match maxc with
    | none => .error (.attrErr (str "maxc"))
    | some mc =>
      let fo2 := { fo with maxc := none }
      let to2 : Options :=
        { to_ with
          vtype := some (normVal f.type)
          minv := some (max minc 1)
          maxv := if mc > 1 then some mc else to_.maxv }
      let newName := multiNewName plu f.name
      let appended :=
        if (origNames ++ acc.map (·.name)).any (fun n => n = newName) then []
        else [({ name := newName, type := str "ArrayOf", options := to2,
                 description := f.description } : TypeD)]
      .ok ({ f with type := newName, options := fo2 }, appended)
  else .ok (f, [])

def multiFields (plu : Str → Str) (origNames : List Str) (fl : List FieldD)
    (acc : List TypeD) : Except PyErr (List FieldD × List TypeD) :=
  match fl with
  | [] => .ok ([], acc)
  | .enumD f :: rest =>
    (multiFields plu origNames rest acc).map (fun r => (.enumD f :: r.1, r.2))
  | .genD f :: rest =>
    match multiField plu origNames acc f with
    | .error e => .error e
    | .ok (f2, app) =>
      (multiFields plu origNames rest (acc ++ app)).map (fun r => (.genD f2 :: r.1, r.2))

def multiTypes (plu : Str → Str) (origNames : List Str) (ts : List TypeD)
    (acc : List TypeD) : Except PyErr (List TypeD × List TypeD) :=
  match ts with
  | [] => .ok ([], acc)
  | t :: rest =>
    match t.fields with
    | none => (multiTypes plu origNames rest acc).map (fun r => (t :: r.1, r.2))
    | some fl =>
      match multiFields plu origNames fl acc with
      | .error e => .error e
      | .ok (fl2, acc2) =>
        (multiTypes plu origNames rest acc2).map
          (fun r => ({ t with fields := some fl2 } :: r.1, r.2))

/-- `remove_multiplicity`: the live list visited during iteration is the
originals (whose names never change) followed by the appended types
(which have no fields and are no-ops when visited). -/
def remove_multiplicity (plu : Str → Str) (ts : List TypeD) : Except PyErr (List TypeD) :=
  (multiTypes plu (ts.map (·.name)) ts []).map (fun r => r.1 ++ r.2)

/-- A type row of the JADN list form `[name, type, options, description,
fields?]`. -/
inductive RawField where
  | genR (id : Int) (name : Str) (type : Str) (options : List Str) (description : Str)
  | enumR (id : Int) (value : Sum Int Str) (description : Str)
  deriving DecidableEq, Repr

structure RawType where
  name : Str
  type : Str
  options : List Str := []
  description : Str := []
  fields : Option (List RawField) := none
  deriving DecidableEq, Repr

/-- `_convert_types`, list→dict direction: fields are zipped against the
enum or general key tuple chosen by the *exact* type string. -/
def rawFieldToD (isEnum : Bool) (rf : RawField) : Except PyErr FieldD :=
  match isEnum, rf with
  | true, .enumR i v ds => .ok (.enumD { id := i, value := v, description := ds })
  | false, .genR i n t o ds =>
    match Options.ofTokens o with
    | .error e => .error e
    | .ok op => .ok (.genD { id := i, name := n, type := t, options := op, description := ds })
  | _, _ => .error .typeErr

def rawToTypeD (rt : RawType) : Except PyErr TypeD := do
  let op ← Options.ofTokens rt.options
  let fl ← match rt.fields with
    | none => pure (none : Option (List FieldD))
    | some l => some <$> l.mapM (rawFieldToD (rt.type = str "Enumerated"))
  pure { name := rt.name, type := rt.type, options := op,
         description := rt.description, fields := fl }

def convertTypesToDict (ts : List RawType) : Except PyErr (List TypeD) :=
  ts.mapM rawToTypeD

/-- `_convert_types`, dict→list direction: re-serialises every options
object via `Options.schema` (which *verifies* and raises on the first
option error — `type_def["options"].schema(type)` passes no defname). -/
def typeDToRaw (td : TypeD) : Except PyErr RawType := do
  let o ← td.options.schema td.type [] false
  let fl ← match td.fields with
    | none => pure (none : Option (List RawField))
    | some l => some <$> l.mapM (fun fd =>
      match fd with
      | .enumD f => pure (RawField.enumR f.id f.value f.description)
      | .genD f => do
        let fo ← f.options.schema f.type f.name true
        pure (RawField.genR f.id f.name f.type fo f.description))
  pure { name := td.name, type := td.type, options := o,
         description := td.description, fields := fl }

def convertTypesToList (ts : List TypeD) : Except PyErr (List RawType) :=
  ts.mapM typeDToRaw

/-- `make_definition` (`definitions/__init__.py`) plus the checks of
`DefinitionBase.__init__` and the `check_name` validators: option/field
construction, name pattern and reserved-name checks, the compound/fields
invariant, and the field-kind invariant (note `init_model` picks
`EnumeratedField` by the exact string `"Enumerated"`, while `__init__`
compares the *basetype*). -/
def make_definition (rt : RawType) : Except PyErr Definition := do
  let op ← Options.ofTokens rt.options
  let fk ← match rt.fields with
    | none => pure (none : Option FieldsK)
    | some l =>
      if rt.type = str "Enumerated" then
        (fun x => some (FieldsK.enum x)) <$> l.mapM (fun rf =>
          match rf with
          | .enumR i v ds => pure ({ id := i, value := v, description := ds } : EnumeratedField)
          | .genR .. => .error .typeErr)
      else
        (fun x => some (FieldsK.gen x)) <$> l.mapM (fun rf =>
          match rf with
          | .genR i n t o ds => do
            if ¬ matchFieldName n then .error .valueErr
            let fo ← Options.ofTokens o
            pure ({ id := i, name := n, type := t, options := fo, description := ds } : Field)
          | .enumR .. => .error .typeErr)
  if ¬ matchTypeName rt.name then .error .valueErr
  if rt.name ∈ allBuiltins then .error (.raised (.fmtNameIsType rt.name))
  let compound := isCompoundB (basetypeOf rt.type)
  if compound ∧ fk.isNone then .error (.raised (.fmtFieldsRequired rt.name))
  if ¬ compound ∧ fk.isSome then .error (.raised (.fmtImproper rt.name))
  match fk with
  | some (.enum _) =>
    if basetypeOf rt.type ≠ str "Enumerated" then .error (.raised (.fmtBadFieldKind rt.name))
    else pure ()
  | some (.gen _) =>
    if basetypeOf rt.type = str "Enumerated" then .error (.raised (.fmtBadFieldKind rt.name))
    else pure ()
  | none => pure ()
  pure { name := rt.name, type := rt.type, options := op,
         description := rt.description, fields := fk }

/-- `{t[0]: make_definition(t) for t in types}` — duplicate names
overwrite. -/
def buildTypes (ts : List RawType) : Except PyErr (List (Str × Definition)) :=
  ts.foldlM (fun acc rt => do
    let d ← make_definition rt
    pure (assocSet acc rt.name d)) []

/-- The raw input of `_setSchema`: the meta is taken already shaped
(`Meta` construction failures from ill-typed meta values are outside the
modelled surface); the types are in list form. -/
structure RawSchema where
  meta : Meta := {}
  types : List RawType := []

/-- The per-type loop of `_setSchema` lines 531-533: `process_options`
(mutating the derived cache) and accumulating field types into the
class-level `_schema_types` set. -/
def processLoop (s : SchemaSt) (l : List (Str × Definition)) : SchemaSt × Option PyErr :=
  match l with
  | [] => (s, none)
  | (_, d) :: rest =>
    match Definition.process_options s d with
    | (s1, some e) => (s1, some e)
    | (s1, none) =>
      let s2 := { s1 with schemaTypesSet :=
        s1.schemaTypesSet ++ d.fieldtypes.filter (fun t => ¬ t ∈ s1.schemaTypesSet) }
      processLoop s2 rest

/-- `Schema._setSchema(data)` (`schema.py` lines 518-535) as a state
transition: `meta` is replaced first; the input then runs through
`simplify(data, False, True, False, False)` (= `_convert_types`,
`remove_multiplicity`, `_convert_types`); `super().__init__` builds and
assigns `types`; `process_options` fills the derived cache; finally
`verify_schema()` raises its first error.  Each completed mutation
persists when a later step raises. -/
def SchemaSt.setSchema (s : SchemaSt) (raw : RawSchema) (plu : Str → Str) :
    SchemaSt × Option PyErr :=
  let s1 := { s with meta := raw.meta }
  match convertTypesToDict raw.types with
  | .error e => (s1, some e)
  | .ok tds =>
    match remove_multiplicity plu tds with
    | .error e => (s1, some e)
    | .ok tds2 =>
      match convertTypesToList tds2 with
      | .error e => (s1, some e)
      | .ok raws2 =>
        match buildTypes raws2 with
        | .error e => (s1, some e)
        | .ok tmap =>
          let s2 := { s1 with types := tmap }
          match processLoop s2 tmap with
          | (s3, some e) => (s3, some e)
          | (s3, none) =>
            match s3.verify_schema with
            | [] => (s3, none)
            | e :: _ => (s3, some (.raised e))

end Jadn

-- ### Claim theorems

open Jadn

/-- **C5** (confirmed): for every Options record with both cardinality
bounds present (`minc`/`maxc` in field mode, `minv`/`maxv` otherwise), a
maximum of 0 means unbounded — it never by itself produces the
"max cannot be less than min" error, whatever the minimum is — while a
nonzero maximum strictly below the minimum makes `verify` report that
error. -/
theorem c5_max_zero_unbounded (o : Options) (bt defname : Str) (fm : Bool) (mn mx : Int)
    (hmn : (if fm then o.minc else o.minv) = some mn)
    (hmx : (if fm then o.maxc else o.maxv) = some mx) :
    (mx = 0 → SErr.optMaxLtMin fm ∉ o.verify bt defname fm) ∧
    (mx ≠ 0 → mx < mn → SErr.optMaxLtMin fm ∈ o.verify bt defname fm) := by
  unfold Options.verify
  rw [hmn, hmx]
  simp only [Option.getD_some, List.mem_append]
  constructor
  · rintro rfl hmem
    rcases hmem with (h | h) | h <;>
      (repeat' split at h) <;> simp_all
  · intro h1 h2
    left; right
    simp [h1, h2]

/-- Witness for C5 at concrete inputs: `minc=5, maxc=0` is accepted,
`minc=5, maxc=2` is flagged. -/
theorem c5_max_zero_unbounded_witness :
    SErr.optMaxLtMin true ∉
      (({ minc := some 5, maxc := some 0 } : Options).verify (str "Record") (str "T") true) ∧
    SErr.optMaxLtMin true ∈
      (({ minc := some 5, maxc := some 2 } : Options).verify (str "Record") (str "T") true) :=
  ⟨(c5_max_zero_unbounded { minc := some 5, maxc := some 0 } (str "Record") (str "T")
      true 5 0 rfl rfl).1 rfl,
   (c5_max_zero_unbounded { minc := some 5, maxc := some 2 } (str "Record") (str "T")
      true 5 2 rfl rfl).2 (by decide) (by decide)⟩

/-- **C1** counterexample: decoding the token list `["^x"]` (first
character `^` is not in the tag table) succeeds with an empty Options
record — no `FormatError` is raised and nothing names the offending
token; decoding `["[1", "[2"]` (two tokens targeting `minc`) succeeds
with the second value, again with no error. -/
theorem c1_counterexample :
    Options.ofTokens [str "^x"] = .ok ({} : Options) ∧
    Options.ofTokens [str "[1", str "[2"] = .ok ({ minc := some 2 } : Options) := by
  constructor <;> rfl

/-- Helper: `foldTokens` over a concatenation. -/
theorem foldTokens_append (ts1 ts2 : List Str) (acc : Options) :
    foldTokens (ts1 ++ ts2) acc =
      match foldTokens ts1 acc with
      | .error e => .error e
      | .ok o => foldTokens ts2 o := by
  induction ts1 generalizing acc with
  | nil => simp [foldTokens]
  | cons t ts ih =>
    simp only [List.cons_append, foldTokens]
    cases parseTok t with
    | error e => rfl
    | ok r => cases r with
      | none => exact ih acc
      | some kv => exact ih (acc.set kv.1 kv.2)

/-- **C1** (amended): `Options` decoding never fails on an unknown tag or
a duplicate target — a token whose first character is not in the tag
table is silently skipped, and of several tokens targeting the same slot
the last one wins (the `tmp` dict entry is overwritten). -/
theorem c1_amended :
    (∀ (c : Char) (cs : Str) (ts : List Str), tagOf c = none →
      Options.ofTokens ((c :: cs) :: ts) = Options.ofTokens ts) ∧
    (∀ (ts : List Str) (c : Char) (cs : Str) (k : OptKey) (v : OptVal) (o : Options),
      parseTok (c :: cs) = .ok (some (k, v)) →
      foldTokens ts {} = .ok o →
      foldTokens (ts ++ [c :: cs]) {} = .ok (o.set k v)) := by
  constructor
  · intro c cs ts h
    simp [Options.ofTokens, foldTokens, parseTok, h]
  · intro ts c cs k v o hp hf
    rw [foldTokens_append, hf]
    simp [foldTokens, hp]

/-- Witness for C1's amended statement: skipping `"^x"` in front of
`"%p"`, and `"[2"` overwriting the `minc` set by `"[1"`. -/
theorem c1_amended_witness :
    Options.ofTokens [str "^x", str "%p"] = Options.ofTokens [str "%p"] ∧
    foldTokens [str "[1", str "[2"] {} =
      .ok (Options.set { minc := some 1 } OptKey.minc (.i 2)) :=
  ⟨c1_amended.1 '^' (str "x") [str "%p"] rfl,
   c1_amended.2 [str "[1"] '[' (str "2") OptKey.minc (.i 2) { minc := some 1 } rfl rfl⟩

/-- `Options.verify` never produces a positional-tag (`Item ID`) error. -/
theorem optVerify_no_itemId (o : Options) (bt dn : Str) (fm : Bool) (tn fn : Str) (g x : Int) :
    SErr.fmtItemId tn fn g x ∉ o.verify bt dn fm := by
  unfold Options.verify
  simp only [List.mem_append]
  rintro ((h | h) | h) <;> (repeat' split at h) <;> simp_all

/-- **C6** (confirmed): for an Array or Record definition, `verify`
reports the positional-tag `FormatError` exactly at the indices `i` where
`fields[i].id ≠ i+1` — one error per offending index, and none at all
when every id equals its 1-based position. -/
theorem c6_ordinal_positional (d : Definition) (fl : List Field) (sts : List Str)
    (hb : d.type = str "Array" ∨ d.type = str "Record")
    (hf : d.fields = some (.gen fl)) :
    ((∀ i (h : i < fl.length), fl[i].id = (i : Int) + 1) →
      ∀ tn fn got exp, SErr.fmtItemId tn fn got exp ∉ d.verify sts) ∧
    (∀ i (h : i < fl.length), fl[i].id ≠ (i : Int) + 1 →
      SErr.fmtItemId d.name (fl[i]).name (fl[i]).id ((i : Int) + 1) ∈ d.verify sts) := by
  have hgen : d.genFields = fl := by simp [Definition.genFields, hf]
  have hv : d.verify sts =
      d.options.verify (basetypeOf d.type) d.name false ++
      (fl.enum.flatMap (fieldVerifyOne d.name true sts) ++
      ((if fl.length ≠ (fl.map (·.id)).dedup.length then
          [SErr.dupTags d.name fl.length (fl.map (·.id)).dedup.length] else []) ++
      (if fl.length ≠ (fl.map (·.name)).dedup.length ∧ basetypeOf d.type ≠ str "Array" then
          [SErr.dupNames d.name fl.length (fl.map (·.name)).dedup.length] else []))) := by
    unfold Definition.verify
    rw [hf]
    rcases hb with hb | hb <;> rw [hb] <;> simp [hgen, hb] <;> rfl
  constructor
  · intro hall tn fn got exp hmem
    rw [hv] at hmem
    simp only [List.mem_append] at hmem
    rcases hmem with h | h | h | h
    · exact optVerify_no_itemId _ _ _ _ _ _ _ _ h
    · rw [List.mem_flatMap] at h
      obtain ⟨⟨i, f⟩, hmem2, hin⟩ := h
      rw [List.mk_mem_enum_iff_getElem?] at hmem2
      obtain ⟨hlt, hfi⟩ := List.getElem?_eq_some.mp hmem2
      unfold fieldVerifyOne at hin
      simp only [List.mem_append] at hin
      rcases hin with (h1 | h2) | h3
      · have := hall i hlt
        rw [hfi] at this
        split at h1 <;> simp_all
      · split at h2 <;> simp_all
      · exact optVerify_no_itemId _ _ _ _ _ _ _ _ h3
    · split at h <;> simp_all
    · split at h <;> simp_all
  · intro i h hne
    rw [hv]
    simp only [List.mem_append]
    right; left
    rw [List.mem_flatMap]
    refine ⟨(i, fl[i]), ?_, ?_⟩
    · rw [List.mk_mem_enum_iff_getElem?]
      exact List.getElem?_eq_some.mpr ⟨h, rfl⟩
    · unfold fieldVerifyOne
      simp [hne]

/-- The two concrete Array definitions used by C6's witness. -/
def c6BadFl : List Field :=
  [{ id := 1, name := str "a", type := str "Integer" },
   { id := 3, name := str "b", type := str "Integer" }]

def c6Bad : Definition :=
  { name := str "A", type := str "Array", fields := some (.gen c6BadFl) }

def c6GoodFl : List Field := [{ id := 1, name := str "a", type := str "Integer" }]

def c6Good : Definition :=
  { name := str "A", type := str "Array", fields := some (.gen c6GoodFl) }

/-- Witness for C6: an Array whose second field has id 3 (should be 2) is
flagged with the positional error; a well-numbered Array is not. -/
theorem c6_ordinal_positional_witness :
    SErr.fmtItemId (str "A") (str "b") 3 2 ∈ c6Bad.verify allBuiltins ∧
    SErr.fmtItemId (str "A") (str "a") 1 1 ∉ c6Good.verify allBuiltins :=
  ⟨(c6_ordinal_positional c6Bad c6BadFl allBuiltins (Or.inl rfl) rfl).2 1
     (by decide) (by decide),
   (c6_ordinal_positional c6Good c6GoodFl allBuiltins (Or.inl rfl) rfl).1
     (by decide) (str "A") (str "a") 1 1⟩

/-- Any duplicate pair makes the deduplicated list strictly shorter. -/
theorem dup_dedup_ne {α : Type} [DecidableEq α] (l : List α) (i j : Nat)
    (hi : i < l.length) (hj : j < l.length) (hne : i ≠ j) (heq : l[i] = l[j]) :
    l.dedup.length ≠ l.length := by
  intro hlen
  have hd : l.dedup = l := (List.dedup_sublist l).eq_of_length hlen
  have hnd : l.Nodup := by rw [← hd]; exact l.nodup_dedup
  have hinj := List.nodup_iff_injective_get.mp hnd
  have : (⟨i, hi⟩ : Fin l.length) = ⟨j, hj⟩ := by
    apply hinj
    simpa [List.get_eq_getElem] using heq
  exact hne (by simpa using congrArg Fin.val this)

/-- **C7** counterexample: an Enumerated definition whose two items share
id 1 passes `verify` with no error at all — the duplicate-id check is
skipped entirely for Enumerated (`basetype != "Enumerated"` guard), so no
`DuplicateError` is raised even though Enumerated is a compound kind. -/
theorem c7_counterexample :
    (({ name := str "Colors", type := str "Enumerated",
        fields := some (.enum [{ id := 1, value := .inr (str "red") },
                               { id := 1, value := .inr (str "blue") }]) } :
      Definition).verify allBuiltins) = [] := by
  decide

/-- **C7** (amended): for the compound kinds whose fields are general
(Array, Choice, Map, Record — Enumerated is excluded by the code), two
fields sharing an id always yield a `DuplicateError`, and two fields
sharing a name yield one unless the type is Array. -/
theorem c7_duplicates (d : Definition) (fl : List Field) (sts : List Str)
    (hb : d.type = str "Array" ∨ d.type = str "Choice" ∨ d.type = str "Map" ∨
      d.type = str "Record")
    (hf : d.fields = some (.gen fl)) :
    ((∃ i j, ∃ (hi : i < fl.length) (hj : j < fl.length), i ≠ j ∧ fl[i].id = fl[j].id) →
      SErr.dupTags d.name fl.length ((fl.map (·.id)).dedup.length) ∈ d.verify sts) ∧
    (d.type ≠ str "Array" →
      (∃ i j, ∃ (hi : i < fl.length) (hj : j < fl.length), i ≠ j ∧ fl[i].name = fl[j].name) →
      SErr.dupNames d.name fl.length ((fl.map (·.name)).dedup.length) ∈ d.verify sts) := by
  have hgen : d.genFields = fl := by simp [Definition.genFields, hf]
  have hv : d.verify sts =
      d.options.verify (basetypeOf d.type) d.name false ++
      (fl.enum.flatMap (fieldVerifyOne d.name
          (basetypeOf d.type = str "Array" ∨ basetypeOf d.type = str "Record") sts) ++
      ((if fl.length ≠ (fl.map (·.id)).dedup.length then
          [SErr.dupTags d.name fl.length (fl.map (·.id)).dedup.length] else []) ++
      (if fl.length ≠ (fl.map (·.name)).dedup.length ∧ basetypeOf d.type ≠ str "Array" then
          [SErr.dupNames d.name fl.length (fl.map (·.name)).dedup.length] else []))) := by
    unfold Definition.verify
    rw [hf]
    rcases hb with hb | hb | hb | hb <;> rw [hb] <;> simp [hgen, hb] <;> rfl
  constructor
  · rintro ⟨i, j, hi, hj, hne, heq⟩
    have hdup : (fl.map (·.id)).dedup.length ≠ (fl.map (·.id)).length := by
      apply dup_dedup_ne (fl.map (·.id)) i j (by simpa using hi) (by simpa using hj) hne
      simp only [List.getElem_map]
      exact heq
    rw [hv]
    simp only [List.mem_append]
    right; right; left
    rw [List.length_map] at hdup
    simp [Ne.symm hdup]
  · rintro hna ⟨i, j, hi, hj, hne, heq⟩
    have hdup : (fl.map (·.name)).dedup.length ≠ (fl.map (·.name)).length := by
      apply dup_dedup_ne (fl.map (·.name)) i j (by simpa using hi) (by simpa using hj) hne
      simp only [List.getElem_map]
      exact heq
    have hbne : basetypeOf d.type ≠ str "Array" := by
      rcases hb with hb | hb | hb | hb <;> rw [hb] <;> first | (exact absurd hb hna) | decide
    rw [hv]
    simp only [List.mem_append]
    right; right; right
    rw [List.length_map] at hdup
    simp [Ne.symm hdup, hbne]

/-- Witness for C7's amended statement — the concrete Record of the
claim: fields `[1,"a","Integer",[],""]` and `[2,"a","String",[],""]`
(duplicate name, unique ids) draw a `DuplicateError`. -/
def c7RecFl : List Field :=
  [{ id := 1, name := str "a", type := str "Integer" },
   { id := 2, name := str "a", type := str "String" }]

def c7Rec : Definition :=
  { name := str "T", type := str "Record", fields := some (.gen c7RecFl) }

theorem c7_duplicates_witness :
    SErr.dupNames (str "T") 2 1 ∈ c7Rec.verify allBuiltins :=
  (c7_duplicates c7Rec c7RecFl allBuiltins (by right; right; right; rfl) rfl).2 (by decide)
    ⟨0, 1, by decide, by decide, by decide, rfl⟩

theorem seg_default (ov : Option Str) (rest : List Str) (acc : Options)
    (hacc : acc.default = none) :
    foldTokens (emitTokS '!' ov ++ rest) acc =
      foldTokens rest { acc with default := ov } := by
  cases ov with
  | none =>
    have h2 : ({ acc with default := none } : Options) = acc := by
      cases acc; simp_all
    rw [h2]; rfl
  | some v =>
    have h2 : (acc.set .default (.s v)) = { acc with default := some v } := rfl
    simp only [emitTokS, List.cons_append, foldTokens, parseTok]
    rw [show tagOf '!' = some OptKey.default from rfl]
    simp only [OptKey.ann, h2]
    rfl

theorem seg_tfield (ov : Option Str) (rest : List Str) (acc : Options)
    (hacc : acc.tfield = none) :
    foldTokens (emitTokS '&' ov ++ rest) acc =
      foldTokens rest { acc with tfield := ov } := by
  cases ov with
  | none =>
    have h2 : ({ acc with tfield := none } : Options) = acc := by
      cases acc; simp_all
    rw [h2]; rfl
  | some v =>
    have h2 : (acc.set .tfield (.s v)) = { acc with tfield := some v } := rfl
    simp only [emitTokS, List.cons_append, foldTokens, parseTok]
    rw [show tagOf '&' = some OptKey.tfield from rfl]
    simp only [OptKey.ann, h2]
    rfl

theorem seg_enum (ov : Option Str) (rest : List Str) (acc : Options)
    (hacc : acc.enum = none) :
    foldTokens (emitTokS '#' ov ++ rest) acc =
      foldTokens rest { acc with enum := ov } := by
  cases ov with
  | none =>
    have h2 : ({ acc with enum := none } : Options) = acc := by
      cases acc; simp_all
    rw [h2]; rfl
  | some v =>
    have h2 : (acc.set .enum (.s v)) = { acc with enum := some v } := rfl
    simp only [emitTokS, List.cons_append, foldTokens, parseTok]
    rw [show tagOf '#' = some OptKey.enum from rfl]
    simp only [OptKey.ann, h2]
    rfl

theorem seg_ktype (ov : Option Str) (rest : List Str) (acc : Options)
    (hacc : acc.ktype = none) :
    foldTokens (emitTokS '+' ov ++ rest) acc =
      foldTokens rest { acc with ktype := ov } := by
  cases ov with
  | none =>
    have h2 : ({ acc with ktype := none } : Options) = acc := by
      cases acc; simp_all
    rw [h2]; rfl
  | some v =>
    have h2 : (acc.set .ktype (.s v)) = { acc with ktype := some v } := rfl
    simp only [emitTokS, List.cons_append, foldTokens, parseTok]
    rw [show tagOf '+' = some OptKey.ktype from rfl]
    simp only [OptKey.ann, h2]
    rfl

theorem seg_format (ov : Option Str) (rest : List Str) (acc : Options)
    (hacc : acc.format = none) :
    foldTokens (emitTokS '/' ov ++ rest) acc =
      foldTokens rest { acc with format := ov } := by
  cases ov with
  | none =>
    have h2 : ({ acc with format := none } : Options) = acc := by
      cases acc; simp_all
    rw [h2]; rfl
  | some v =>
    have h2 : (acc.set .format (.s v)) = { acc with format := some v } := rfl
    simp only [emitTokS, List.cons_append, foldTokens, parseTok]
    rw [show tagOf '/' = some OptKey.format from rfl]
    simp only [OptKey.ann, h2]
    rfl

theorem seg_pattern (ov : Option Str) (rest : List Str) (acc : Options)
    (hacc : acc.pattern = none) :
    foldTokens (emitTokS '%' ov ++ rest) acc =
      foldTokens rest { acc with pattern := ov } := by
  cases ov with
  | none =>
    have h2 : ({ acc with pattern := none } : Options) = acc := by
      cases acc; simp_all
    rw [h2]; rfl
  | some v =>
    have h2 : (acc.set .pattern (.s v)) = { acc with pattern := some v } := rfl
    simp only [emitTokS, List.cons_append, foldTokens, parseTok]
    rw [show tagOf '%' = some OptKey.pattern from rfl]
    simp only [OptKey.ann, h2]
    rfl

theorem seg_minc (ov : Option Int) (rest : List Str) (acc : Options)
    (hacc : acc.minc = none) :
    foldTokens (emitTokI '[' ov ++ rest) acc =
      foldTokens rest { acc with minc := ov } := by
  cases ov with
  | none =>
    have h2 : ({ acc with minc := none } : Options) = acc := by
      cases acc; simp_all
    rw [h2]; rfl
  | some v =>
    have h2 : (acc.set .minc (.i v)) = { acc with minc := some v } := rfl
    simp only [emitTokI, List.cons_append, foldTokens, parseTok]
    rw [show tagOf '[' = some OptKey.minc from rfl]
    simp only [OptKey.ann, parseInt_intChars, h2]
    rfl

theorem seg_maxc (ov : Option Int) (rest : List Str) (acc : Options)
    (hacc : acc.maxc = none) :
    foldTokens (emitTokI ']' ov ++ rest) acc =
      foldTokens rest { acc with maxc := ov } := by
  cases ov with
  | none =>
    have h2 : ({ acc with maxc := none } : Options) = acc := by
      cases acc; simp_all
    rw [h2]; rfl
  | some v =>
    have h2 : (acc.set .maxc (.i v)) = { acc with maxc := some v } := rfl
    simp only [emitTokI, List.cons_append, foldTokens, parseTok]
    rw [show tagOf ']' = some OptKey.maxc from rfl]
    simp only [OptKey.ann, parseInt_intChars, h2]
    rfl

theorem seg_minv (ov : Option Int) (rest : List Str) (acc : Options)
    (hacc : acc.minv = none) :
    foldTokens (emitTokI lbr ov ++ rest) acc =
      foldTokens rest { acc with minv := ov } := by
  cases ov with
  | none =>
    have h2 : ({ acc with minv := none } : Options) = acc := by
      cases acc; simp_all
    rw [h2]; rfl
  | some v =>
    have h2 : (acc.set .minv (.i v)) = { acc with minv := some v } := rfl
    simp only [emitTokI, List.cons_append, foldTokens, parseTok]
    rw [show tagOf lbr = some OptKey.minv from rfl]
    simp only [OptKey.ann, parseInt_intChars, h2]
    rfl

theorem seg_maxv (ov : Option Int) (rest : List Str) (acc : Options)
    (hacc : acc.maxv = none) :
    foldTokens (emitTokI rbr ov ++ rest) acc =
      foldTokens rest { acc with maxv := ov } := by
  cases ov with
  | none =>
    have h2 : ({ acc with maxv := none } : Options) = acc := by
      cases acc; simp_all
    rw [h2]; rfl
  | some v =>
    have h2 : (acc.set .maxv (.i v)) = { acc with maxv := some v } := rfl
    simp only [emitTokI, List.cons_append, foldTokens, parseTok]
    rw [show tagOf rbr = some OptKey.maxv from rfl]
    simp only [OptKey.ann, parseInt_intChars, h2]
    rfl

theorem seg_path (ov : Option Bool) (rest : List Str) (acc : Options)
    (hacc : acc.path = none) (hov : ov ≠ some false) :
    foldTokens (emitTokB '<' ov ++ rest) acc =
      foldTokens rest { acc with path := ov } := by
  cases ov with
  | none =>
    have h2 : ({ acc with path := none } : Options) = acc := by
      cases acc; simp_all
    rw [h2]; rfl
  | some b =>
    cases b with
    | false => exact absurd rfl hov
    | true =>
      have h2 : (acc.set .path (.b true)) = { acc with path := some true } := rfl
      simp only [emitTokB, List.cons_append, foldTokens, parseTok]
      rw [show tagOf '<' = some OptKey.path from rfl]
      simp only [OptKey.ann, h2]
      rfl

theorem seg_id (ov : Option Bool) (rest : List Str) (acc : Options)
    (hacc : acc.id = none) (hov : ov ≠ some false) :
    foldTokens (emitTokB '=' ov ++ rest) acc =
      foldTokens rest { acc with id := ov } := by
  cases ov with
  | none =>
    have h2 : ({ acc with id := none } : Options) = acc := by
      cases acc; simp_all
    rw [h2]; rfl
  | some b =>
    cases b with
    | false => exact absurd rfl hov
    | true =>
      have h2 : (acc.set .id (.b true)) = { acc with id := some true } := rfl
      simp only [emitTokB, List.cons_append, foldTokens, parseTok]
      rw [show tagOf '=' = some OptKey.id from rfl]
      simp only [OptKey.ann, h2]
      rfl

theorem seg_unique (ov : Option Bool) (rest : List Str) (acc : Options)
    (hacc : acc.unique = none) (hov : ov ≠ some false) :
    foldTokens (emitTokB 'q' ov ++ rest) acc =
      foldTokens rest { acc with unique := ov } := by
  cases ov with
  | none =>
    have h2 : ({ acc with unique := none } : Options) = acc := by
      cases acc; simp_all
    rw [h2]; rfl
  | some b =>
    cases b with
    | false => exact absurd rfl hov
    | true =>
      have h2 : (acc.set .unique (.b true)) = { acc with unique := some true } := rfl
      simp only [emitTokB, List.cons_append, foldTokens, parseTok]
      rw [show tagOf 'q' = some OptKey.unique from rfl]
      simp only [OptKey.ann, h2]
      rfl

theorem seg_vtype (ov : Option Str) (rest : List Str) (acc : Options)
    (hacc : acc.vtype = none) (hov : ∀ v, ov = some v → ¬ hasPfx (str "_Enum") v) :
    foldTokens (emitTokVtype ov ++ rest) acc =
      foldTokens rest { acc with vtype := ov } := by
  cases ov with
  | none =>
    have h2 : ({ acc with vtype := none } : Options) = acc := by
      cases acc; simp_all
    rw [h2]; rfl
  | some v =>
    have hp : hasPfx (str "_Enum") v = false := by
      have := hov v rfl; simp_all
    have h2 : (acc.set .vtype (.s v)) = { acc with vtype := some v } := rfl
    simp only [emitTokVtype, hp, Bool.false_eq_true, if_false, List.cons_append,
      foldTokens, parseTok]
    rw [show tagOf '*' = some OptKey.vtype from rfl]
    simp only [OptKey.ann, h2]
    rfl
/-- The shape of an `Options` record as the list-decoder itself produces
it: boolean slots hold `True` when present, `ktype`/`vtype` are in
normalised form (no `Enum(...)` spelling), and `vtype` carries no internal
`_Enum` marker. -/
def normalizedB (o : Options) : Bool :=
  decide (o.id ≠ some false) && decide (o.path ≠ some false) && decide (o.unique ≠ some false) &&
  (match o.ktype with | some v => (enumMatch v).isNone | none => true) &&
  (match o.vtype with
   | some v => (enumMatch v).isNone && !hasPfx (str "_Enum") v
   | none => true)

/-- **C4** counterexample: an ArrayOf Options record with
`vtype = "_Enum-Foo"` passes `verify` (so it belongs to a well-formed
Definition), but `schema` emits the token `*#Foo` (the `_Enum-` → `#`
substitution of `options.py` line 172), which decodes back to
`vtype = "#Foo"` ≠ the original — the round trip fails. -/
theorem c4_counterexample :
    (({ vtype := some (str "_Enum-Foo") } : Options).schema (str "ArrayOf") (str "T") false
      = .ok [str "*#Foo"]) ∧
    Options.ofTokens [str "*#Foo"] = .ok ({ vtype := some (str "#Foo") } : Options) ∧
    ({ vtype := some (str "#Foo") } : Options) ≠ ({ vtype := some (str "_Enum-Foo") } : Options) := by
  refine ⟨rfl, rfl, by decide⟩

/-- **C4** (amended): for every Options record in the decoder's canonical
shape (`normalizedB` — booleans stored as `True`, `ktype`/`vtype`
normalised, and no `_Enum`-marked `vtype`), an encoding that succeeds
(`Options.schema` verifies and emits) decodes back to exactly the
original record. -/
theorem c4_roundtrip (o : Options) (bt dn : Str) (fl : Bool) (ts : List Str)
    (hn : normalizedB o = true) (hs : o.schema bt dn fl = .ok ts) :
    Options.ofTokens ts = .ok o := by
  unfold normalizedB at hn
  simp only [Bool.and_eq_true, decide_eq_true_eq] at hn
  obtain ⟨⟨⟨⟨hid, hpath⟩, huniq⟩, hkt⟩, hvt⟩ := hn
  have hts : ts = o.emit := by
    unfold Options.schema at hs
    split at hs
    · injection hs with h; exact h.symm
    · cases hs
  subst hts
  have hkmap : o.ktype.map normVal = o.ktype := by
    cases hk : o.ktype with
    | none => rfl
    | some v =>
      rw [hk] at hkt
      have : enumMatch v = none := by simpa [Option.isNone_iff_eq_none] using hkt
      simp [normVal, this]
  have hvt1 : ∀ v, o.vtype = some v → (enumMatch v).isNone := by
    intro v hv; rw [hv] at hvt; simp_all
  have hvt2 : ∀ v, o.vtype = some v → ¬ hasPfx (str "_Enum") v := by
    intro v hv; rw [hv] at hvt; simp_all
  have hvmap : o.vtype.map normVal = o.vtype := by
    cases hk : o.vtype with
    | none => rfl
    | some v =>
      have : enumMatch v = none := by
        simpa [Option.isNone_iff_eq_none] using hvt1 v hk
      simp [normVal, this]
  unfold Options.ofTokens Options.emit
  simp only [List.append_assoc]
  rw [← List.append_nil (emitTokB 'q' o.unique)]
  rw [seg_default o.default _ _ rfl]
  rw [seg_minc o.minc _ _ rfl]
  rw [seg_maxc o.maxc _ _ rfl]
  rw [seg_path o.path _ _ rfl hpath]
  rw [seg_tfield o.tfield _ _ rfl]
  rw [seg_enum o.enum _ _ rfl]
  rw [seg_id o.id _ _ rfl hid]
  rw [seg_ktype o.ktype _ _ rfl]
  rw [seg_vtype o.vtype _ _ rfl hvt2]
  rw [seg_format o.format _ _ rfl]
  rw [seg_pattern o.pattern _ _ rfl]
  rw [seg_minv o.minv _ _ rfl]
  rw [seg_maxv o.maxv _ _ rfl]
  rw [seg_unique o.unique _ _ rfl huniq]
  simp only [foldTokens, Except.map]
  congr 1
  unfold Options.normalize
  simp only [hkmap, hvmap]

/-- Witness for C4 at a concrete record: a unique ArrayOf over a declared
type `$Foo` encodes to `["*$Foo", "q"]` and decodes back unchanged. -/
theorem c4_roundtrip_witness :
    normalizedB ({ vtype := some (str "$Foo"), unique := some true } : Options) = true ∧
    ({ vtype := some (str "$Foo"), unique := some true } : Options).schema
      (str "ArrayOf") (str "T") false = .ok [str "*$Foo", str "q"] ∧
    Options.ofTokens [str "*$Foo", str "q"] =
      .ok ({ vtype := some (str "$Foo"), unique := some true } : Options) :=
  ⟨by decide, rfl,
   c4_roundtrip { vtype := some (str "$Foo"), unique := some true }
     (str "ArrayOf") (str "T") false [str "*$Foo", str "q"] (by decide) rfl⟩

/-- The concrete schema of C9's counterexample: one import alias `ns`,
one declared, exported type `X`. -/
def c9Schema : SchemaSt :=
  { meta := { module := some (str "M"),
              imports := some [(str "ns", str "mod")],
              exports := some [str "X"] },
    types := [(str "X", { name := str "X", type := str "Integer" })] }

/-- **C9** counterexample: `analyze()` puts the *import alias* `ns` into
`unreferenced` — the claim says unreferenced names are "not themselves
imports", but `dependencies()` seeds its key set with the import ids and
`analyze` never removes them. -/
theorem c9_counterexample :
    str "ns" ∈ (SchemaSt.analyze c9Schema).unreferenced ∧
    str "ns" ∈ (c9Schema.meta.imports.getD []).map (·.1) := by
  constructor <;> decide

/-- **C9** (amended): membership in `analyze()`'s result sets —
`undefined` is the names *directly referenced* by some type's
(namespace-collapsed) dependency set *or exported*, minus the
`dependencies()` keys (declared type names *and* import aliases) and the
derived-cache names; `unreferenced` is the `dependencies()` keys
(including import aliases) that are neither directly referenced nor
exported, minus derived names.  (No reachability from exports is
computed, and import aliases are *included* in the unreferenced pool.) -/
theorem c9_analyze_sets (s : SchemaSt) (n : Str) :
    (n ∈ (s.analyze).undefined ↔
      ((∃ p ∈ s.dependencies, n ∈ p.2) ∨ n ∈ s.meta.exports.getD []) ∧
        ¬ ((∃ p ∈ s.dependencies, p.1 = n) ∨ ∃ p ∈ s.derived, p.1 = n)) ∧
    (n ∈ (s.analyze).unreferenced ↔
      (∃ p ∈ s.dependencies, p.1 = n) ∧
        ¬ ((∃ p ∈ s.dependencies, n ∈ p.2) ∨ n ∈ s.meta.exports.getD []) ∧
        ¬ (∃ p ∈ s.derived, p.1 = n)) := by
  unfold SchemaSt.analyze
  simp only [Finset.mem_sdiff, Finset.mem_union, List.mem_toFinset, List.mem_flatMap,
    List.mem_map]
  refine ⟨by tauto, ?_, ?_⟩
  · rintro ⟨⟨ht, hr⟩, hd⟩
    rcases ht with h | h
    · exact ⟨h, hr, hd⟩
    · exact absurd h hd
  · rintro ⟨h1, h2, h3⟩
    exact ⟨⟨Or.inl h1, h2⟩, h3⟩

def fieldCleanB : FieldD → Bool
  | .genD f => f.options.typePart = ({} : Options)
  | .enumD _ => true

def typeCleanB (t : TypeD) : Bool := (t.fields.getD []).all fieldCleanB

theorem typePart_fieldPart (o : Options) : (o.fieldPart).typePart = ({} : Options) := rfl

theorem anonField_clean (sys : Str) (f : Field) :
    fieldCleanB (.genD (anonField sys f).1) = true := by
  by_cases h : f.options.typePart = ({} : Options)
  · unfold anonField
    simp [h, fieldCleanB]
  · unfold anonField
    simp [h, fieldCleanB, typePart_fieldPart]

theorem anonField_id (sys : Str) (f : Field) (h : fieldCleanB (.genD f) = true) :
    anonField sys f = (f, []) := by
  unfold anonField
  simp only [fieldCleanB, decide_eq_true_eq] at h
  simp [h]

theorem anonFieldD_clean (sys : Str) (fd : FieldD) :
    fieldCleanB (anonFieldD sys fd).1 = true := by
  cases fd with
  | genD f => exact anonField_clean sys f
  | enumD f => rfl

theorem anonFieldD_id (sys : Str) (fd : FieldD) (h : fieldCleanB fd = true) :
    anonFieldD sys fd = (fd, []) := by
  cases fd with
  | genD f => simp [anonFieldD, anonField_id sys f h]
  | enumD f => rfl

theorem flatMap_nil_of_all {α β : Type} (l : List α) (f : α → List β)
    (h : ∀ x ∈ l, f x = []) : l.flatMap f = [] := by
  induction l with
  | nil => rfl
  | cons a as ih =>
    simp only [List.flatMap_cons, h a (by simp), List.nil_append]
    exact ih (fun x hx => h x (by simp [hx]))

theorem anonType_out_clean (sys : Str) (t : TypeD) :
    typeCleanB (anonType sys t).1 = true ∧
    ∀ t' ∈ (anonType sys t).2, typeCleanB t' = true := by
  unfold anonType
  cases hf : t.fields with
  | none => simp [typeCleanB, hf]
  | some fl =>
    constructor
    · simp only [typeCleanB, Option.getD_some, List.all_eq_true, List.map_map, List.mem_map]
      rintro fd ⟨fd0, hfd0, rfl⟩
      exact anonFieldD_clean sys fd0
    · intro t' ht'
      simp only [List.mem_flatMap, List.mem_map] at ht'
      obtain ⟨p, ⟨fd0, hfd0, rfl⟩, hin⟩ := ht'
      cases fd0 with
      | genD f =>
        simp only [anonFieldD] at hin
        by_cases hcl : f.options.typePart = ({} : Options)
        · rw [show anonField sys f = (f, []) from by unfold anonField; simp [hcl]] at hin
          simp at hin
        · unfold anonField at hin
          simp only [ne_eq, hcl, not_false_eq_true, if_true, List.mem_singleton] at hin
          subst hin
          rfl
      | enumD f => simp [anonFieldD] at hin

theorem anonType_id (sys : Str) (t : TypeD) (h : typeCleanB t = true) :
    anonType sys t = (t, []) := by
  unfold anonType
  split
  · rfl
  · rename_i fl hf
    simp only [typeCleanB, hf, Option.getD_some, List.all_eq_true] at h
    have hmap : fl.map (anonFieldD sys) = fl.map (fun fd => (fd, [])) :=
      List.map_congr_left (fun fd hfd => anonFieldD_id sys fd (h fd hfd))
    rw [hmap]
    have h1 : (fl.map (fun fd => (fd, ([] : List TypeD)))).map (·.1) = fl := by
      simp [List.map_map, Function.comp_def]
    have h2 : (fl.map (fun fd => (fd, ([] : List TypeD)))).flatMap (·.2) = [] := by
      apply flatMap_nil_of_all
      rintro p hp
      simp only [List.mem_map] at hp
      obtain ⟨fd0, _, rfl⟩ := hp
      rfl
    simp only [h1, h2]
    have heq : ({ t with fields := some fl } : TypeD) = t := by
      cases t
      simp_all
    rw [heq]

theorem remove_anon_out_clean (sys : Str) (ts : List TypeD) :
    ∀ t' ∈ remove_anonymous_type sys ts, typeCleanB t' = true := by
  intro t' ht'
  unfold remove_anonymous_type at ht'
  simp only [List.mem_append, List.mem_map, List.mem_flatMap] at ht'
  rcases ht' with ⟨p, ⟨t0, ht0, rfl⟩, rfl⟩ | ⟨p, ⟨t0, ht0, rfl⟩, hin⟩
  · exact (anonType_out_clean sys t0).1
  · exact (anonType_out_clean sys t0).2 t' hin

theorem remove_anon_id (sys : Str) (ts : List TypeD)
    (h : ∀ t ∈ ts, typeCleanB t = true) :
    remove_anonymous_type sys ts = ts := by
  unfold remove_anonymous_type
  have hmap : ts.map (anonType sys) = ts.map (fun t => (t, [])) :=
    List.map_congr_left (fun t ht => anonType_id sys t (h t ht))
  rw [hmap]
  have h1 : (ts.map (fun t => (t, ([] : List TypeD)))).map (·.1) = ts := by
    simp [List.map_map, Function.comp_def]
  have h2 : (ts.map (fun t => (t, ([] : List TypeD)))).flatMap (·.2) = [] := by
    apply flatMap_nil_of_all
    rintro p hp
    simp only [List.mem_map] at hp
    obtain ⟨t0, _, rfl⟩ := hp
    rfl
  simp only [h1, h2, List.append_nil]

theorem multiField_nodup (plu : Str → Str) (origNames : List Str) (acc : List TypeD)
    (f f2 : Field) (app : List TypeD)
    (h : multiField plu origNames acc f = .ok (f2, app))
    (hnd : (origNames ++ acc.map (·.name)).Nodup) :
    (origNames ++ (acc ++ app).map (·.name)).Nodup := by
  unfold multiField at h
  dsimp only at h
  split at h
  · split at h
    · cases h
    · rename_i mc
      split at h <;>
        (simp only [Except.ok.injEq, Prod.mk.injEq] at h
         obtain ⟨_, happ⟩ := h
         rw [← happ])
      · simpa using hnd
      · rename_i hg hf2
        simp only [List.any_eq_true, decide_eq_true_eq, not_exists, not_and] at hg
        rw [List.map_append, ← List.append_assoc]
        rw [List.nodup_append]
        refine ⟨by simpa using hnd, List.nodup_singleton _, ?_⟩
        intro a ha hb
        simp only [List.map_cons, List.map_nil, List.mem_singleton] at hb
        subst hb
        have := hg _ (by simpa using ha)
        simp_all
  · simp only [Except.ok.injEq, Prod.mk.injEq] at h
    obtain ⟨_, happ⟩ := h
    rw [← happ]
    simpa using hnd

theorem multiFields_nodup (plu : Str → Str) (origNames : List Str) :
    ∀ (fl : List FieldD) (acc : List TypeD) (fl2 : List FieldD) (acc2 : List TypeD),
    multiFields plu origNames fl acc = .ok (fl2, acc2) →
    (origNames ++ acc.map (·.name)).Nodup →
    (origNames ++ acc2.map (·.name)).Nodup := by
  intro fl
  induction fl with
  | nil =>
    intro acc fl2 acc2 h hnd
    unfold multiFields at h
    simp only [Except.ok.injEq, Prod.mk.injEq] at h
    rw [← h.2]
    exact hnd
  | cons fd rest ih =>
    intro acc fl2 acc2 h hnd
    cases fd with
    | enumD f =>
      rw [show multiFields plu origNames (FieldD.enumD f :: rest) acc =
        (multiFields plu origNames rest acc).map (fun r => (.enumD f :: r.1, r.2)) from rfl] at h
      cases hr : multiFields plu origNames rest acc with
      | error e => rw [hr] at h; cases h
      | ok p =>
        rw [hr] at h
        simp only [Except.map, Except.ok.injEq, Prod.mk.injEq] at h
        obtain ⟨p1, p2⟩ := p
        obtain ⟨-, h2⟩ := h
        rw [← h2]
        exact ih acc p1 p2 hr hnd
    | genD f =>
      rw [show multiFields plu origNames (FieldD.genD f :: rest) acc =
        (match multiField plu origNames acc f with
         | .error e => .error e
         | .ok (f2, app) =>
           (multiFields plu origNames rest (acc ++ app)).map
             (fun r => (.genD f2 :: r.1, r.2))) from rfl] at h
      cases hmf : multiField plu origNames acc f with
      | error e => rw [hmf] at h; cases h
      | ok fp =>
        rw [hmf] at h
        obtain ⟨f2, app⟩ := fp
        dsimp only at h
        cases hr : multiFields plu origNames rest (acc ++ app) with
        | error e => rw [hr] at h; cases h
        | ok p =>
          rw [hr] at h
          simp only [Except.map, Except.ok.injEq, Prod.mk.injEq] at h
          obtain ⟨p1, p2⟩ := p
          obtain ⟨-, h2⟩ := h
          rw [← h2]
          exact ih (acc ++ app) p1 p2 hr
            (multiField_nodup plu origNames acc f f2 app hmf hnd)

theorem multiTypes_spec (plu : Str → Str) (origNames : List Str) :
    ∀ (ts : List TypeD) (acc : List TypeD) (r1 r2 : List TypeD),
    multiTypes plu origNames ts acc = .ok (r1, r2) →
    (r1.map (·.name) = ts.map (·.name)) ∧
    ((origNames ++ acc.map (·.name)).Nodup → (origNames ++ r2.map (·.name)).Nodup) := by
  intro ts
  induction ts with
  | nil =>
    intro acc r1 r2 h
    unfold multiTypes at h
    simp only [Except.ok.injEq, Prod.mk.injEq] at h
    rw [← h.1, ← h.2]
    exact ⟨rfl, fun hnd => hnd⟩
  | cons t rest ih =>
    intro acc r1 r2 h
    rw [show multiTypes plu origNames (t :: rest) acc =
      (match t.fields with
       | none => (multiTypes plu origNames rest acc).map (fun r => (t :: r.1, r.2))
       | some fl =>
         match multiFields plu origNames fl acc with
         | .error e => .error e
         | .ok (fl2, acc2) =>
           (multiTypes plu origNames rest acc2).map
             (fun r => ({ t with fields := some fl2 } :: r.1, r.2))) from rfl] at h
    cases hf : t.fields with
    | none =>
      rw [hf] at h
      dsimp only at h
      cases hr : multiTypes plu origNames rest acc with
      | error e => rw [hr] at h; cases h
      | ok p =>
        rw [hr] at h
        simp only [Except.map, Except.ok.injEq, Prod.mk.injEq] at h
        obtain ⟨p1, p2⟩ := p
        obtain ⟨h1, h2⟩ := h
        rw [← h1, ← h2]
        obtain ⟨ih1, ih2⟩ := ih acc p1 p2 hr
        exact ⟨by simp [ih1], ih2⟩
    | some fl =>
      rw [hf] at h
      dsimp only at h
      cases hmf : multiFields plu origNames fl acc with
      | error e => rw [hmf] at h; cases h
      | ok fp =>
        rw [hmf] at h
        obtain ⟨fl2, acc2⟩ := fp
        dsimp only at h
        cases hr : multiTypes plu origNames rest acc2 with
        | error e => rw [hr] at h; cases h
        | ok p =>
          rw [hr] at h
          simp only [Except.map, Except.ok.injEq, Prod.mk.injEq] at h
          obtain ⟨p1, p2⟩ := p
          obtain ⟨h1, h2⟩ := h
          rw [← h1, ← h2]
          obtain ⟨ih1, ih2⟩ := ih acc2 p1 p2 hr
          refine ⟨by simp [ih1], fun hnd => ih2 ?_⟩
          exact multiFields_nodup plu origNames fl acc fl2 acc2 hmf hnd

/-- **C8** counterexample: `remove_anonymous_type` appends synthesized
types with *no* deduplication — an Array with two fields both named `a`
of type `String`, each carrying a (type-level) `pattern` option, gets the
synthesized name `String$a` appended twice. -/
theorem c8_counterexample :
    ((remove_anonymous_type (str "$")
      [{ name := str "Arr", type := str "Array",
         fields := some
           [.genD { id := 1, name := str "a", type := str "String",
                    options := { pattern := some (str "x") } },
            .genD { id := 2, name := str "a", type := str "String",
                    options := { pattern := some (str "y") } }] }]).map (·.name)).count
      (str "String$a") = 2 := by
  decide

/-- **C8** (amended): of the two modelled simplify passes,
`remove_multiplicity` deduplicates by synthesized name (it checks the
live type list before appending, so distinct names stay distinct), and
`remove_anonymous_type`, while appending with *no* deduplication (see the
counterexample), is idempotent — a second run rewrites nothing and
appends nothing, because the first run leaves every field without
type-level options. -/
theorem c8_simplify_dedup (sys : Str) (plu : Str → Str) (ts ts2 : List TypeD) :
    (remove_anonymous_type sys (remove_anonymous_type sys ts) = remove_anonymous_type sys ts) ∧
    ((ts2.map (·.name)).Nodup → ∀ res, remove_multiplicity plu ts2 = .ok res →
      (res.map (·.name)).Nodup) := by
  constructor
  · exact remove_anon_id sys _ (remove_anon_out_clean sys ts)
  · intro hnd res hres
    unfold remove_multiplicity at hres
    cases hmt : multiTypes plu (ts2.map (·.name)) ts2 [] with
    | error e => rw [hmt] at hres; cases hres
    | ok p =>
      rw [hmt] at hres
      obtain ⟨r1, r2⟩ := p
      simp only [Except.map, Except.ok.injEq] at hres
      obtain ⟨hn1, hn2⟩ := multiTypes_spec plu (ts2.map (·.name)) ts2 [] r1 r2 hmt
      have h2 := hn2 (by simpa using hnd)
      rw [← hres]
      rw [List.map_append, hn1]
      exact h2

def c8t0W : TypeD :=
  { name := str "T", type := str "Record",
    fields := some [.genD { id := 1, name := str "a", type := str "String",
                            options := { minc := some 1, maxc := some 0 } }] }

def c8pluW : Str → Str := fun s => s ++ str "s"

def c8resW : List TypeD :=
  [{ name := str "T", type := str "Record",
     fields := some [.genD { id := 1, name := str "a", type := str "As",
                             options := { minc := some 1 } }] },
   { name := str "As", type := str "ArrayOf",
     options := { vtype := some (str "String"), minv := some 1 } }]

/-- Witness for C8's amended statement: lifting a `[1"/"]0` (one-or-more)
field out of a Record synthesizes one `ArrayOf` type `As`, and the result
has pairwise-distinct type names. -/
theorem c8_simplify_dedup_witness :
    (c8resW.map (·.name)).Nodup ∧ remove_multiplicity c8pluW [c8t0W] = .ok c8resW :=
  ⟨(c8_simplify_dedup (str "$") c8pluW [] [c8t0W]).2 (by decide) c8resW rfl, rfl⟩

-- ### C3: `validate_as` never mutates the Schema state

/-- The per-field loop leaves the state untouched: `Field.validate`
returns before the lazy `setattr(self._config, ...)` line can run. -/
theorem fieldLoop_fst (s : SchemaSt) (d : Definition) (c : Bool)
    (items : List (Str × Value)) (acc : Errs) :
    (fieldLoop s d c items acc).1 = s := by
  induction items generalizing s acc with
  | nil => rfl
  | cons kv rest ih =>
    obtain ⟨k, v⟩ := kv
    unfold fieldLoop
    cases d.get_field k with
    | none => rfl
    | some fd => rfl

/-- `Record.validate`/`Map.validate` shared body: state-pure. -/
theorem mapRecValidate_fst (s : SchemaSt) (d : Definition) (v : Value) (c : Bool) :
    (mapRecValidate s d v c).1 = s := by
  cases v <;> try rfl
  unfold mapRecValidate
  dsimp only
  split
  · rfl
  · split
    · rfl
    · split <;> split <;> first | rfl | exact fieldLoop_fst ..

/-- The `ArrayOf` element loop is state-pure when the element validation
is. -/
theorem validateList_fst (f : SchemaSt → Definition → Value → SchemaSt × Except PyErr ValRet)
    (hf : ∀ s d v, (f s d v).1 = s) (sd : Option Definition) (s : SchemaSt)
    (vs : List Value) (acc : Errs) :
    (validateList f sd s vs acc).1 = s := by
  induction vs generalizing s acc with
  | nil => rfl
  | cons x xs ih =>
    unfold validateList
    cases sd with
    | none => rfl
    | some d0 =>
      have hp := hf s d0 x
      rcases hx : f s d0 x with ⟨s1, r⟩
      rw [hx] at hp
      dsimp only
      rw [hx]
      cases r with
      | error e => exact hp
      | ok r0 => rw [show s1 = s from hp]; exact ih s (acc ++ _)

/-- The `MapOf` item loop is state-pure when the element validation is. -/
theorem mapItems_fst (f : SchemaSt → Definition → Value → SchemaSt × Except PyErr ValRet)
    (hf : ∀ s d v, (f s d v).1 = s) (kd vd : Option Definition) (s : SchemaSt)
    (items : List (Str × Value)) (acc : Errs) :
    (mapItems f kd vd s items acc).1 = s := by
  induction items generalizing s acc with
  | nil => rfl
  | cons kv rest ih =>
    obtain ⟨k, val⟩ := kv
    unfold mapItems
    cases kd with
    | none => rfl
    | some kd0 =>
      have hp := hf s kd0 (.vStr k)
      rcases hx : f s kd0 (.vStr k) with ⟨s1, r⟩
      rw [hx] at hp
      dsimp only
      rw [hx]
      cases r with
      | error e => exact hp
      | ok kr =>
        cases vd with
        | none => exact hp
        | some vd0 =>
          have hp2 := hf s1 vd0 val
          rcases hx2 : f s1 vd0 val with ⟨s2, r2⟩
          rw [hx2] at hp2
          dsimp only
          rw [hx2]
          cases r2 with
          | error e => exact hp2.trans hp
          | ok vr => rw [show s2 = s from hp2.trans hp]; exact ih s (acc ++ _ ++ _)

/-- `Choice.validate` is state-pure when the nested validation is. -/
theorem choiceValidate_fst (f : SchemaSt → Definition → Value → SchemaSt × Except PyErr ValRet)
    (hf : ∀ s d v, (f s d v).1 = s) (s : SchemaSt) (d : Definition) (v : Value) :
    (choiceValidate f s d v).1 = s := by
  cases v <;> try rfl
  rename_i items
  unfold choiceValidate
  dsimp only
  split
  · split
    · cases d.get_field _ with
      | none => rfl
      | some fd =>
        dsimp only
        cases lookupA s.types fd.type with
        | none => rfl
        | some td =>
          dsimp only
          cases dictGet items _ with
          | none => rfl
          | some v2 =>
            have hp := hf s td v2
            rcases hx : f s td v2 with ⟨s1, r⟩
            rw [hx] at hp
            dsimp only
            rw [hx]
            rcases r with e | r0
            · exact hp
            · cases r0 <;> exact hp
    · rfl
  · rfl

/-- `MapOf.validate` is state-pure when the nested validation is. -/
theorem mapOfValidate_fst (f : SchemaSt → Definition → Value → SchemaSt × Except PyErr ValRet)
    (hf : ∀ s d v, (f s d v).1 = s) (s : SchemaSt) (d : Definition) (v : Value) :
    (mapOfValidate f s d v).1 = s := by
  cases v <;> try rfl
  rename_i items
  unfold mapOfValidate
  dsimp only
  cases d.options.ktype with
  | none => rfl
  | some kt =>
    dsimp only
    split
    · rfl
    cases d.options.vtype with
    | none => rfl
    | some vt =>
      dsimp only
      split
      · rfl
      have hl := mapItems_fst f hf (lookupA s.types kt) (lookupA s.types vt) s items
      rcases hx : mapItems f (lookupA s.types kt) (lookupA s.types vt) s items _ with ⟨s1, r⟩
      have hp : s1 = s := (congrArg Prod.fst hx).symm.trans (hl _)
      cases r with
      | error e => exact hp
      | ok l => exact hp

/-- Dispatch purity, by induction on the stack-depth bound: whatever the
definition kind, the instance and the remaining depth, validation returns
the state it was given. -/
theorem validate_fst : ∀ (g : Nat) (s : SchemaSt) (d : Definition) (v : Value),
    (Definition.validate s d v g).1 = s := by
  intro g
  induction g with
  | zero => intro s d v; rfl
  | succ g ih =>
    intro s d v
    rw [Definition.validate]
    split
    · rfl
    split
    · -- ArrayOf
      cases hpe : pyElems v with
      | error e => rfl
      | ok elems =>
        dsimp only
        cases hu : (if d.options.unique.isSome then uniqueCheck d.name elems
            else Except.ok []) with
        | error e => rfl
        | ok e2 =>
          cases hvt : d.options.vtype with
          | none => rfl
          | some vt =>
            dsimp only
            split
            · rfl
            cases hpt : pyTypeOf vt with
            | some pt => rfl
            | none =>
              dsimp only
              have hl := validateList_fst (fun s2 d2 v2 => Definition.validate s2 d2 v2 g)
                (fun a b c => ih a b c)
                (if hasPfx (str "$") vt then lookupA s.derived vt else lookupA s.types vt)
                s elems []
              rcases hxx : validateList (fun s2 d2 v2 => Definition.validate s2 d2 v2 g)
                  (if hasPfx (str "$") vt then lookupA s.derived vt else lookupA s.types vt)
                  s elems [] with ⟨s1, r⟩
              rw [hxx] at hl
              cases r with
              | error e => exact hl
              | ok e3 => exact hl
    split
    · exact choiceValidate_fst _ (fun a b c => ih a b c) s d v
    split
    · rfl
    split
    · -- Map
      have hm := mapRecValidate_fst s d v false
      rcases hx : mapRecValidate s d v false with ⟨s1, r⟩
      rw [hx] at hm
      cases r with
      | error e => exact hm
      | ok l => exact hm
    split
    · exact mapOfValidate_fst _ (fun a b c => ih a b c) s d v
    split
    · -- Record
      have hm := mapRecValidate_fst s d v true
      rcases hx : mapRecValidate s d v true with ⟨s1, r⟩
      rw [hx] at hm
      cases r with
      | error e => exact hm
      | ok l => exact hm
    · rfl

/-- **C3**: `Schema.validate_as` is side-effect-free on the Schema state —
for every state, instance value, type name and stack-depth bound, the
state after the call (its `types` map, `derived` cache, `formats`
registry and meta) is the very state passed in.  This holds not because
the code avoids mutation (line 131 of `fields.py` *would* insert a
`_<name>` definition into the types map) but because `Field.validate`
always raises `AttributeError` on `self._schema` first, and every other
path only reads the state. -/
theorem c3_validate_as_pure (s : SchemaSt) (v : Value) (ty : Str) (g : Nat) :
    (SchemaSt.validate_as s v ty g).1 = s := by
  unfold SchemaSt.validate_as
  cases s.meta.exports with
  | none => rfl
  | some exps =>
    dsimp only
    split
    · cases lookupA s.types ty with
      | none => rfl
      | some d =>
        dsimp only
        have hp := validate_fst g s d v
        rcases hx : Definition.validate s d v g with ⟨s1, r⟩
        rw [hx] at hp
        cases r with
        | error e => exact hp
        | ok r0 => cases r0 <;> exact hp
    · rfl

-- ### C10: the "field is required" check is unreachable (`fields.py`)

/-- The Record of C10's input: one field `a : Integer` whose `minc` and
`maxc` are absent, so both default to 1 — a required field. -/
def c10Rec : Definition :=
  { name := str "T", type := str "Record",
    fields := some (.gen [{ id := 1, name := str "a", type := str "Integer" }]) }

/-- A loaded schema exporting `T`. -/
def c10Schema : SchemaSt :=
  { meta := { exports := some [str "T"] }, types := [(str "T", c10Rec)] }

/-- **C10**: validating the instance dict mapping the required field `a`
to the falsy host-type value `0` does *not* report the "field is
required" ValidationError the claim promises: `Field.validate` computes
the required-error entry but then reads `self._schema` (`fields.py` line
127/134 via `process_options`/dispatch), an attribute no constructor ever
assigns to `Field` instances, so the whole `validate_as` call dies with
`AttributeError` before any error list can be returned. -/
theorem c10_required_field_crash :
    (SchemaSt.validate_as c10Schema (.vDict [(str "a", .vInt 0)]) (str "T") 10).2 =
      .error (.attrErr (str "_schema")) := rfl

-- ### C2: a failed load leaves the mutations already made

/-- `process_options` on one ktype/vtype slot can only extend the derived
cache: `meta` and `types` come through untouched. -/
theorem processOptions1_meta_types (s : SchemaSt) (kt : Option Str) (s1 : SchemaSt)
    (h : processOptions1 s kt = .ok s1) : s1.meta = s.meta ∧ s1.types = s.types := by
  cases kt with
  | none =>
    unfold processOptions1 at h
    cases h
    exact ⟨rfl, rfl⟩
  | some k =>
    unfold processOptions1 at h
    dsimp only at h
    by_cases hp : hasPfx (str "$") k = true
    · rw [if_pos hp] at h
      cases hl : lookupA s.derived k with
      | some td0 => rw [hl] at h; cases h; exact ⟨rfl, rfl⟩
      | none =>
        rw [hl] at h
        cases hl2 : lookupA s.types (k.drop 1) with
        | none => rw [hl2] at h; cases h
        | some td =>
          rw [hl2] at h
          dsimp only at h
          cases he : td.enumerated with
          | error e => rw [he] at h; cases h
          | ok ed => rw [he] at h; cases h; exact ⟨rfl, rfl⟩
    · rw [if_neg hp] at h
      cases h
      exact ⟨rfl, rfl⟩

/-- `DefinitionBase.process_options` preserves `meta` and `types` whether
it succeeds or raises. -/
theorem process_options_meta_types (s : SchemaSt) (d : Definition) :
    (Definition.process_options s d).1.meta = s.meta ∧
    (Definition.process_options s d).1.types = s.types := by
  unfold Definition.process_options
  cases h1 : processOptions1 s d.options.ktype with
  | error e => exact ⟨rfl, rfl⟩
  | ok s1 =>
    have hm1 := processOptions1_meta_types s _ s1 h1
    dsimp only
    cases h2 : processOptions1 s1 d.options.vtype with
    | error e => exact hm1
    | ok s2 =>
      have hm2 := processOptions1_meta_types s1 _ s2 h2
      exact ⟨hm2.1.trans hm1.1, hm2.2.trans hm1.2⟩

/-- The `_setSchema` per-type loop only touches the derived cache and the
class-level type set: `meta` and `types` survive, also on error. -/
theorem processLoop_meta_types (l : List (Str × Definition)) (s : SchemaSt) :
    (processLoop s l).1.meta = s.meta ∧ (processLoop s l).1.types = s.types := by
  induction l generalizing s with
  | nil => exact ⟨rfl, rfl⟩
  | cons p rest ih =>
    obtain ⟨k, d⟩ := p
    unfold processLoop
    have hm := process_options_meta_types s d
    rcases hx : Definition.process_options s d with ⟨s1, e?⟩
    rw [hx] at hm
    cases e? with
    | some e => exact hm
    | none =>
      dsimp only
      have h3 := ih { s1 with schemaTypesSet :=
        s1.schemaTypesSet ++ d.fieldtypes.filter (fun t => ¬ t ∈ s1.schemaTypesSet) }
      exact ⟨h3.1.trans hm.1, h3.2.trans hm.2⟩

/-- The raw schema of C2's counterexample: a Record `T` with two fields
named `a` — structurally loadable, rejected by `verify_schema`. -/
def c2Raw : RawSchema :=
  { meta := { exports := some [str "T"] }
    types := [{ name := str "T", type := str "Record",
                fields := some [.genR 1 (str "a") (str "Integer") [] [],
                                .genR 2 (str "a") (str "String") [] []] }] }

/-- **C2** counterexample: loading `c2Raw` into a fresh state reports an
error (the duplicate-name DuplicateError raised by `verify_schema`), yet
the returned instance is partially populated and usable: its meta now
exports `T` and its types map holds the rejected Record. -/
theorem c2_counterexample :
    ((SchemaSt.setSchema {} c2Raw (fun x => x)).2).isSome = true ∧
    (SchemaSt.setSchema {} c2Raw (fun x => x)).1.meta.exports = some [str "T"] ∧
    ((SchemaSt.setSchema {} c2Raw (fun x => x)).1.types.map (·.1)) = [str "T"] :=
  ⟨rfl, rfl, rfl⟩

/-- **C2** (amended): `_setSchema` mutates in place, step by step — `meta`
is replaced before anything is parsed, `types` is assigned as soon as the
definitions build. Whenever the pipeline reaches the type-build stage
(the four structural steps succeed), the caller's instance ends with the
new meta and the freshly built types map *whatever happens afterwards*:
a `process_options` failure or a `verify_schema` rejection reports the
error while the populated state persists. -/
theorem c2_partial_mutation (s : SchemaSt) (raw : RawSchema) (plu : Str → Str)
    (tds tds2 : List TypeD) (raws2 : List RawType) (tmap : List (Str × Definition))
    (h1 : convertTypesToDict raw.types = .ok tds)
    (h2 : remove_multiplicity plu tds = .ok tds2)
    (h3 : convertTypesToList tds2 = .ok raws2)
    (h4 : buildTypes raws2 = .ok tmap) :
    (SchemaSt.setSchema s raw plu).1.meta = raw.meta ∧
    (SchemaSt.setSchema s raw plu).1.types = tmap := by
  unfold SchemaSt.setSchema
  simp only [h1, h2, h3, h4]
  have hm := processLoop_meta_types tmap { s with meta := raw.meta, types := tmap }
  rcases hx : processLoop { s with meta := raw.meta, types := tmap } tmap with ⟨s3, e?⟩
  rw [hx] at hm
  cases e? with
  | some e => exact hm
  | none =>
    dsimp only
    cases hv : SchemaSt.verify_schema s3 with
    | nil => exact hm
    | cons e rest => exact hm

/-- The intermediate stages of loading `c2Raw`, read back off the
pipeline itself. -/
def c2Tds : List TypeD := (convertTypesToDict c2Raw.types).toOption.getD []

def c2Tds2 : List TypeD := (remove_multiplicity (fun x => x) c2Tds).toOption.getD []

def c2Raws2 : List RawType := (convertTypesToList c2Tds2).toOption.getD []

def c2Tmap : List (Str × Definition) := (buildTypes c2Raws2).toOption.getD []

/-- Witness for C2's amended statement at the concrete rejected schema:
the four structural hypotheses hold by evaluation, and the state after
the failing load carries `c2Raw`'s meta and the built types map. -/
theorem c2_partial_mutation_witness :
    (SchemaSt.setSchema {} c2Raw (fun x => x)).1.meta = c2Raw.meta ∧
    (SchemaSt.setSchema {} c2Raw (fun x => x)).1.types = c2Tmap :=
  c2_partial_mutation {} c2Raw (fun x => x) c2Tds c2Tds2 c2Raws2 c2Tmap rfl rfl rfl rfl
